import Mathlib

/-!
Shallow embedding of the activity-tracking core of the pixel-agents
repository: src/transcriptParser.ts, src/timerManager.ts and the timing
constants of src/constants.ts.

Modelling conventions:
* JS `Map` objects become association lists in insertion order; the
  operations `mget`/`mset`/`mdel` mirror `get`/`set`/`delete`.
* JS `Set` objects become duplicate-free lists in insertion order with
  `sadd`/`sdel`/`smem` mirroring `add`/`delete`/`has`.
* The two per-agent `setTimeout` timers are modelled by an explicit
  scheduler: `pendingTimers` holds the not-yet-fired, not-yet-cancelled
  callbacks, `waitingTimer`/`permissionTimer` hold the handle stored in
  the module-level timer maps for the tracked agent, and `nextHandle`
  generates fresh `setTimeout` handles.
* Events posted to the webview carry the virtual time at which they are
  delivered; the `setTimeout` wrappers around tool-done emissions become
  events stamped `now + delay`.
* A transcript line is either `malformed` (JSON.parse throws, the catch
  block swallows it) or a `parsed` record carrying exactly the fields
  that the source reads.  Optional string fields model `string |
  undefined` values; JS truthiness of strings is `truthyStr`.
-/

namespace PixelAgents

/-! ## Constants (src/constants.ts) -/

def TOOL_DONE_DELAY_MS : Nat := 300

def PERMISSION_TIMER_DELAY_MS : Nat := 7000

def BASH_COMMAND_DISPLAY_MAX_LENGTH : Nat := 30

def TASK_DESCRIPTION_DISPLAY_MAX_LENGTH : Nat := 40

/-- Text-idle fallback delay, imported by transcriptParser.ts as
`TEXT_IDLE_DELAY_MS`; its numeric value is irrelevant to every claim. -/
def TEXT_IDLE_DELAY_MS : Nat := 5000

/-- `PERMISSION_EXEMPT_TOOLS` (src/transcriptParser.ts line 18). -/
def PERMISSION_EXEMPT_TOOLS : List String := ["Task", "AskUserQuestion"]

/-! ## JS Map / Set operations on association lists -/

def mget {α : Type} : List (String × α) → String → Option α
  | [], _ => none
  | p :: rest, k => if p.1 = k then some p.2 else mget rest k

def mset {α : Type} (m : List (String × α)) (k : String) (v : α) : List (String × α) :=
  if (mget m k).isSome then
    m.map (fun p => if p.1 == k then (k, v) else p)
  else
    m ++ [(k, v)]

def mdel {α : Type} (m : List (String × α)) (k : String) : List (String × α) :=
  m.filter (fun p => p.1 ≠ k)

def smem (s : List String) (x : String) : Bool :=
  s.contains x

def sadd (s : List String) (x : String) : List String :=
  if s.contains x then s else s ++ [x]

def sdel (s : List String) (x : String) : List String :=
  s.filter (fun y => y ≠ x)

/-- JS truthiness for a `string | undefined` value: `undefined` and the
empty string are falsy. -/
def truthyStr (o : Option String) : Option String :=
  match o with
  | some s => if s = "" then none else some s
  | none => none

/-! ## formatToolStatus (src/transcriptParser.ts lines 20-43) -/

/-- The fields of a `tool_use` block's `input` object that
`formatToolStatus` reads.  `none` models an absent (or non-string)
field, for which the `typeof p === "string"` guard fails and the
`as string` casts fall back through `|| ""`. -/
structure ToolInput where
  file_path : Option String
  command : Option String
  description : Option String
deriving DecidableEq, Repr

/-- Node's `path.basename` restricted to posix paths: trailing
separators are dropped, then everything up to the last separator. -/
def nodeBasename (p : String) : String :=
  let cs := p.toList
  let stripped := (cs.reverse.dropWhile (fun c => c = '/')).reverse
  if stripped.isEmpty then
    if cs.any (fun c => c = '/') then "/" else ""
  else
    String.mk ((stripped.reverse.takeWhile (fun c => c ≠ '/')).reverse)

/-- `s.slice(0, n)` on a JS string, modelled character-wise. -/
def strTake (s : String) (n : Nat) : String :=
  String.mk (s.toList.take n)

/-- The Bash branch's command truncation:
`cmd.length > 30 ? cmd.slice(0, 30) + ellipsis : cmd`. -/
def bashCommandDisplay (cmd : String) : String :=
  if cmd.length > BASH_COMMAND_DISPLAY_MAX_LENGTH then
    strTake cmd BASH_COMMAND_DISPLAY_MAX_LENGTH ++ "…"
  else cmd

/-- The Task branch's description truncation. -/
def taskDescriptionDisplay (desc : String) : String :=
  if desc.length > TASK_DESCRIPTION_DISPLAY_MAX_LENGTH then
    strTake desc TASK_DESCRIPTION_DISPLAY_MAX_LENGTH ++ "…"
  else desc

/-- The tool names with a dedicated `case` arm in the `switch` of
`formatToolStatus`; every other name takes the `default` arm. -/
def knownToolNames : List String :=
  ["Read", "Edit", "Write", "Bash", "Glob", "Grep", "WebFetch",
   "WebSearch", "Task", "AskUserQuestion", "EnterPlanMode", "NotebookEdit"]

def formatToolStatus (toolName : String) (input : ToolInput) : String :=
  let base : Option String → String := fun p =>
    match p with
    | some s => nodeBasename s
    | none => ""
  if toolName = "Read" then "Reading " ++ base input.file_path
  else if toolName = "Edit" then "Editing " ++ base input.file_path
  else if toolName = "Write" then "Writing " ++ base input.file_path
  else if toolName = "Bash" then "Running: " ++ bashCommandDisplay (input.command.getD "")
  else if toolName = "Glob" then "Searching files"
  else if toolName = "Grep" then "Searching code"
  else if toolName = "WebFetch" then "Fetching web content"
  else if toolName = "WebSearch" then "Searching the web"
  else if toolName = "Task" then
    let desc := input.description.getD ""
    if desc ≠ "" then "Subtask: " ++ taskDescriptionDisplay desc
    else "Running subtask"
  else if toolName = "AskUserQuestion" then "Waiting for your answer"
  else if toolName = "EnterPlanMode" then "Planning"
  else if toolName = "NotebookEdit" then "Editing notebook"
  else "Using " ++ toolName

/-! ## Records (the JSON shapes src/transcriptParser.ts inspects) -/

/-- One element of a `message.content` array.  Assistant blocks use
`type`/`id`/`name`/`input`, user and nested tool-result blocks use
`type`/`tool_use_id`; absent fields are `none`. -/
structure ContentBlock where
  type : String
  id : Option String
  name : Option String
  input : ToolInput
  tool_use_id : Option String
deriving DecidableEq, Repr

/-- `record.message?.content` of a `user` record: an array of blocks, a
plain string, or anything else (including `undefined`). -/
inductive UserContent where
  | arr (blocks : List ContentBlock)
  | str (s : String)
  | other
deriving DecidableEq, Repr

/-- `data.message.message` of a `progress` record: `content` is `some`
when it is an array. -/
structure ProgressMsgInner where
  content : Option (List ContentBlock)
deriving DecidableEq, Repr

/-- `data.message` of a `progress` record. -/
structure ProgressMsg where
  type : String
  message : Option ProgressMsgInner
deriving DecidableEq, Repr

/-- `record.data` of a `progress` record; `dtype` models `data.type`. -/
structure ProgressData where
  dtype : Option String
  message : Option ProgressMsg
deriving DecidableEq, Repr

/-- A parsed transcript record, carrying exactly the fields
`processTranscriptLine` dispatches on.  `assistant none` is an
assistant record whose `message?.content` is not an array. -/
inductive Record where
  | assistant (content : Option (List ContentBlock))
  | user (content : UserContent)
  | system (subtype : Option String)
  | progress (parentToolUseID : Option String) (data : Option ProgressData)
  | otherKind
deriving DecidableEq, Repr

/-- The outcome of `JSON.parse` on one transcript line: `malformed`
when it throws (the catch block then swallows the line). -/
inductive TLine where
  | malformed
  | parsed (r : Record)
deriving DecidableEq, Repr

/-! ## Agent state (AgentState in src/types.ts, fields built in
src/agentManager.ts lines 56-71) -/

structure AgentState where
  activeToolIds : List String
  activeToolStatuses : List (String × String)
  activeToolNames : List (String × String)
  activeSubagentToolIds : List (String × List String)
  activeSubagentToolNames : List (String × List (String × String))
  isWaiting : Bool
  permissionSent : Bool
  hadToolsInTurn : Bool
deriving DecidableEq, Repr

def initAgent : AgentState :=
  ⟨[], [], [], [], [], false, false, false⟩

/-! ## Timer scheduler (src/timerManager.ts) -/

inductive TimerKind where
  | waiting
  | permission
deriving DecidableEq, Repr

/-- One live `setTimeout` registration: its handle, the virtual time at
which it is due, and which of the two callback bodies it runs. -/
structure PendingTimer where
  handle : Nat
  due : Nat
  kind : TimerKind
deriving DecidableEq, Repr

/-- State of one tracked agent together with its two timer-map entries
and the scheduler of live timeouts. -/
structure Sys where
  agent : AgentState
  waitingTimer : Option Nat
  permissionTimer : Option Nat
  pendingTimers : List PendingTimer
  nextHandle : Nat
deriving DecidableEq, Repr

def initSys : Sys :=
  ⟨initAgent, none, none, [], 0⟩

/-- Events posted to the webview (the fixed agent id is implicit). -/
inductive Event where
  | agentStatus (status : String)
  | agentToolStart (toolId status : String)
  | agentToolDone (toolId : String)
  | agentToolsClear
  | subagentClear (parentToolId : String)
  | subagentToolStart (parentToolId toolId status : String)
  | subagentToolDone (parentToolId toolId : String)
  | agentToolPermission
  | subagentToolPermission (parentToolId : String)
deriving DecidableEq, Repr

/-- `cancelWaitingTimer` (src/timerManager.ts lines 24-33): clear the
timeout and drop the map entry. -/
def cancelWaitingTimer (s : Sys) : Sys :=
  match s.waitingTimer with
  | some h =>
      { s with
        pendingTimers := s.pendingTimers.filter (fun t => t.handle ≠ h),
        waitingTimer := none }
  | none => s

/-- `cancelPermissionTimer` (src/timerManager.ts lines 58-67). -/
def cancelPermissionTimer (s : Sys) : Sys :=
  match s.permissionTimer with
  | some h =>
      { s with
        pendingTimers := s.pendingTimers.filter (fun t => t.handle ≠ h),
        permissionTimer := none }
  | none => s

/-- `startWaitingTimer` (src/timerManager.ts lines 35-56): cancel any
existing timer, then register a fresh timeout due after `delayMs`. -/
def startWaitingTimer (now delayMs : Nat) (s : Sys) : Sys :=
  let s1 := cancelWaitingTimer s
  { s1 with
    pendingTimers := s1.pendingTimers ++ [⟨s1.nextHandle, now + delayMs, TimerKind.waiting⟩],
    waitingTimer := some s1.nextHandle,
    nextHandle := s1.nextHandle + 1 }

/-- `startPermissionTimer` (src/timerManager.ts lines 69-122), the
registration part; the callback body is `firePermissionBody`. -/
def startPermissionTimer (now : Nat) (s : Sys) : Sys :=
  let s1 := cancelPermissionTimer s
  { s1 with
    pendingTimers :=
      s1.pendingTimers ++ [⟨s1.nextHandle, now + PERMISSION_TIMER_DELAY_MS, TimerKind.permission⟩],
    permissionTimer := some s1.nextHandle,
    nextHandle := s1.nextHandle + 1 }

/-- Whether any parent-level active tool is non-exempt
(src/timerManager.ts lines 83-90). -/
def hasNonExemptActive (a : AgentState) : Bool :=
  a.activeToolIds.any
    (fun toolId => ¬ PERMISSION_EXEMPT_TOOLS.contains ((mget a.activeToolNames toolId).getD ""))

/-- Whether a sub-agent name map holds any non-exempt tool. -/
def subMapHasNonExempt (names : List (String × String)) : Bool :=
  names.any (fun p => ¬ PERMISSION_EXEMPT_TOOLS.contains p.2)

/-- Parents with a stuck (non-exempt) sub-agent tool
(src/timerManager.ts lines 93-102). -/
def stuckSubagentParents (a : AgentState) : List String :=
  (a.activeSubagentToolNames.filter (fun q => subMapHasNonExempt q.2)).map Prod.fst

/-- Body of the waiting-timer callback (src/timerManager.ts lines
43-54). -/
def fireWaitingBody (s : Sys) : Sys × List Event :=
  ({ s with
      waitingTimer := none,
      agent := { s.agent with isWaiting := true } },
   [Event.agentStatus "waiting"])

/-- Body of the permission-timer callback (src/timerManager.ts lines
77-119). -/
def firePermissionBody (s : Sys) : Sys × List Event :=
  let s1 : Sys := { s with permissionTimer := none }
  let stuck := stuckSubagentParents s1.agent
  if hasNonExemptActive s1.agent || !stuck.isEmpty then
    ({ s1 with agent := { s1.agent with permissionSent := true } },
     Event.agentToolPermission :: stuck.map Event.subagentToolPermission)
  else
    (s1, [])

/-- Expiry of the timeout with handle `h` at time `now`: a cancelled or
already-fired handle is gone from `pendingTimers` and does nothing. -/
def fireTimer (now h : Nat) (s : Sys) : Sys × List (Nat × Event) :=
  match s.pendingTimers.find? (fun t => t.handle == h) with
  | none => (s, [])
  | some t =>
      if t.due ≤ now then
        let s1 : Sys := { s with pendingTimers := s.pendingTimers.filter (fun u => u.handle ≠ h) }
        match t.kind with
        | TimerKind.waiting =>
            let r := fireWaitingBody s1
            (r.1, r.2.map (fun e => (now, e)))
        | TimerKind.permission =>
            let r := firePermissionBody s1
            (r.1, r.2.map (fun e => (now, e)))
      else (s, [])

/-- `clearAgentActivity` (src/timerManager.ts lines 5-22). -/
def clearAgentActivity (now : Nat) (s : Sys) : Sys × List (Nat × Event) :=
  let a : AgentState :=
    { s.agent with
      activeToolIds := [], activeToolStatuses := [], activeToolNames := [],
      activeSubagentToolIds := [], activeSubagentToolNames := [],
      isWaiting := false, permissionSent := false }
  let s1 := cancelPermissionTimer { s with agent := a }
  (s1, [(now, Event.agentToolsClear), (now, Event.agentStatus "active")])

/-! ## processTranscriptLine (src/transcriptParser.ts lines 45-177) -/

/-- One iteration of the assistant tool-start loop (lines 70-88):
returns the updated agent, the events it posts, and whether the block
contributed a non-exempt tool to `hasNonExemptTool`. -/
def addOneToolUse (a : AgentState) (b : ContentBlock) : AgentState × List Event × Bool :=
  if b.type = "tool_use" then
    match truthyStr b.id with
    | some bid =>
        let toolName := b.name.getD ""
        let status := formatToolStatus toolName b.input
        ({ a with
            activeToolIds := sadd a.activeToolIds bid,
            activeToolStatuses := mset a.activeToolStatuses bid status,
            activeToolNames := mset a.activeToolNames bid toolName },
         [Event.agentToolStart bid status],
         ! PERMISSION_EXEMPT_TOOLS.contains toolName)
    | none => (a, [], false)
  else (a, [], false)

/-- The assistant tool-start loop over all content blocks. -/
def addToolUses (a : AgentState) : List ContentBlock → AgentState × List Event × Bool
  | [] => (a, [], false)
  | b :: rest =>
      let r := addOneToolUse a b
      let q := addToolUses r.1 rest
      (q.1, r.2.1 ++ q.2.1, r.2.2 || q.2.2)

/-- One iteration of the user tool-result loop (lines 107-133):
removes the completed tool, clears its sub-agent state when it was a
Task, and schedules the delayed tool-done emission. -/
def processOneToolResult (now : Nat) (a : AgentState) (b : ContentBlock) :
    AgentState × List (Nat × Event) :=
  if b.type = "tool_result" then
    match truthyStr b.tool_use_id with
    | some tid =>
        let cleared :=
          if mget a.activeToolNames tid = some "Task" then
            ({ a with
                activeSubagentToolIds := mdel a.activeSubagentToolIds tid,
                activeSubagentToolNames := mdel a.activeSubagentToolNames tid },
             [(now, Event.subagentClear tid)])
          else (a, ([] : List (Nat × Event)))
        let a2 : AgentState :=
          { cleared.1 with
            activeToolIds := sdel cleared.1.activeToolIds tid,
            activeToolStatuses := mdel cleared.1.activeToolStatuses tid,
            activeToolNames := mdel cleared.1.activeToolNames tid }
        (a2, cleared.2 ++ [(now + TOOL_DONE_DELAY_MS, Event.agentToolDone tid)])
    | none => (a, [])
  else (a, [])

/-- The user tool-result loop over all content blocks. -/
def processToolResults (now : Nat) (a : AgentState) :
    List ContentBlock → AgentState × List (Nat × Event)
  | [] => (a, [])
  | b :: rest =>
      let r := processOneToolResult now a b
      let q := processToolResults now r.1 rest
      (q.1, r.2 ++ q.2)

/-- The freeform-text new-turn branch (lines 140-144 and 146-149):
cancel the idle timer, run `clearAgentActivity`, clear the turn flag. -/
def newTurnReset (now : Nat) (s : Sys) : Sys × List (Nat × Event) :=
  let s1 := cancelWaitingTimer s
  let r := clearAgentActivity now s1
  ({ r.1 with agent := { r.1.agent with hadToolsInTurn := false } }, r.2)

/-- One iteration of the nested sub-agent tool-start loop
(src/transcriptParser.ts lines 219-253). -/
def addOneSubTool (parent : String) (a : AgentState) (b : ContentBlock) :
    AgentState × List Event × Bool :=
  if b.type = "tool_use" then
    match truthyStr b.id with
    | some bid =>
        let toolName := b.name.getD ""
        let status := formatToolStatus toolName b.input
        let subTools := (mget a.activeSubagentToolIds parent).getD []
        let subNames := (mget a.activeSubagentToolNames parent).getD []
        ({ a with
            activeSubagentToolIds := mset a.activeSubagentToolIds parent (sadd subTools bid),
            activeSubagentToolNames :=
              mset a.activeSubagentToolNames parent (mset subNames bid toolName) },
         [Event.subagentToolStart parent bid status],
         ! PERMISSION_EXEMPT_TOOLS.contains toolName)
    | none => (a, [], false)
  else (a, [], false)

def addSubTools (parent : String) (a : AgentState) :
    List ContentBlock → AgentState × List Event × Bool
  | [] => (a, [], false)
  | b :: rest =>
      let r := addOneSubTool parent a b
      let q := addSubTools parent r.1 rest
      (q.1, r.2.1 ++ q.2.1, r.2.2 || q.2.2)

/-- One iteration of the nested sub-agent tool-result loop
(src/transcriptParser.ts lines 258-282); the tool-done emission uses
the literal `300` of line 280. -/
def removeOneSubTool (now : Nat) (parent : String) (a : AgentState) (b : ContentBlock) :
    AgentState × List (Nat × Event) :=
  if b.type = "tool_result" then
    match truthyStr b.tool_use_id with
    | some tid =>
        let a1 :=
          match mget a.activeSubagentToolIds parent with
          | some st =>
              { a with activeSubagentToolIds := mset a.activeSubagentToolIds parent (sdel st tid) }
          | none => a
        let a2 :=
          match mget a1.activeSubagentToolNames parent with
          | some sn =>
              { a1 with
                activeSubagentToolNames := mset a1.activeSubagentToolNames parent (mdel sn tid) }
          | none => a1
        (a2, [(now + 300, Event.subagentToolDone parent tid)])
    | none => (a, [])
  else (a, [])

def removeSubTools (now : Nat) (parent : String) (a : AgentState) :
    List ContentBlock → AgentState × List (Nat × Event)
  | [] => (a, [])
  | b :: rest =>
      let r := removeOneSubTool now parent a b
      let q := removeSubTools now parent r.1 rest
      (q.1, r.2 ++ q.2)

/-- Whether any sub-agent tool of any parent is non-exempt
(src/transcriptParser.ts lines 285-294). -/
def anySubNonExempt (a : AgentState) : Bool :=
  a.activeSubagentToolNames.any (fun q => subMapHasNonExempt q.2)

/-- `processProgressRecord` (src/transcriptParser.ts lines 179-299). -/
def processProgressRecord (now : Nat) (pid : Option String) (data : Option ProgressData)
    (s : Sys) : Sys × List (Nat × Event) :=
  match truthyStr pid with
  | none => (s, [])
  | some parentToolId =>
      match data with
      | none => (s, [])
      | some d =>
          if d.dtype = some "bash_progress" ∨ d.dtype = some "mcp_progress" then
            if smem s.agent.activeToolIds parentToolId then
              (startPermissionTimer now s, [])
            else (s, [])
          else
            if mget s.agent.activeToolNames parentToolId = some "Task" then
              match d.message with
              | none => (s, [])
              | some msg =>
                  match msg.message with
                  | none => (s, [])
                  | some inner =>
                      match inner.content with
                      | none => (s, [])
                      | some content =>
                          if msg.type = "assistant" then
                            let r := addSubTools parentToolId s.agent content
                            let s1 : Sys := { s with agent := r.1 }
                            let s2 := if r.2.2 then startPermissionTimer now s1 else s1
                            (s2, r.2.1.map (fun e => (now, e)))
                          else if msg.type = "user" then
                            let r := removeSubTools now parentToolId s.agent content
                            let s1 : Sys := { s with agent := r.1 }
                            let s2 := if anySubNonExempt r.1 then startPermissionTimer now s1 else s1
                            (s2, r.2)
                          else (s, [])
            else (s, [])

/-- The record dispatch of `processTranscriptLine` (lines 58-173). -/
def processRecord (now : Nat) (r : Record) (s : Sys) : Sys × List (Nat × Event) :=
  match r with
  | Record.assistant none => (s, [])
  | Record.assistant (some blocks) =>
      if blocks.any (fun b => b.type == "tool_use") then
        let s1 := cancelWaitingTimer s
        let a1 : AgentState := { s1.agent with isWaiting := false, hadToolsInTurn := true }
        let r1 := addToolUses a1 blocks
        let s2 : Sys := { s1 with agent := r1.1 }
        let s3 := if r1.2.2 then startPermissionTimer now s2 else s2
        (s3, (Event.agentStatus "active" :: r1.2.1).map (fun e => (now, e)))
      else if blocks.any (fun b => b.type == "text") && ! s.agent.hadToolsInTurn then
        (startWaitingTimer now TEXT_IDLE_DELAY_MS s, [])
      else (s, [])
  | Record.progress pid data => processProgressRecord now pid data s
  | Record.user content =>
      match content with
      | UserContent.arr blocks =>
          if blocks.any (fun b => b.type == "tool_result") then
            let r1 := processToolResults now s.agent blocks
            let a2 :=
              if r1.1.activeToolIds.length = 0 then { r1.1 with hadToolsInTurn := false }
              else r1.1
            ({ s with agent := a2 }, r1.2)
          else newTurnReset now s
      | UserContent.str txt =>
          if txt.trim ≠ "" then newTurnReset now s else (s, [])
      | UserContent.other => (s, [])
  | Record.system subtype =>
      if subtype = some "turn_duration" then
        let s1 := cancelPermissionTimer (cancelWaitingTimer s)
        let cleared :=
          if s1.agent.activeToolIds.length > 0 then
            ({ s1.agent with
                activeToolIds := [], activeToolStatuses := [], activeToolNames := [],
                activeSubagentToolIds := [], activeSubagentToolNames := [] },
             [(now, Event.agentToolsClear)])
          else (s1.agent, ([] : List (Nat × Event)))
        let a2 : AgentState :=
          { cleared.1 with isWaiting := true, permissionSent := false, hadToolsInTurn := false }
        ({ s1 with agent := a2 }, cleared.2 ++ [(now, Event.agentStatus "waiting")])
      else (s, [])
  | Record.otherKind => (s, [])

/-- `processTranscriptLine` on one line: a malformed line is swallowed
by the catch block. -/
def processTranscriptLine (now : Nat) (l : TLine) (s : Sys) : Sys × List (Nat × Event) :=
  match l with
  | TLine.malformed => (s, [])
  | TLine.parsed r => processRecord now r s

/-! ## Runs -/

/-- Process a timed sequence of lines in order, concatenating the
emitted events. -/
def runRecords : List (Nat × TLine) → Sys → Sys × List (Nat × Event)
  | [], s => (s, [])
  | a :: rest, s =>
      let r := processTranscriptLine a.1 a.2 s
      let q := runRecords rest r.1
      (q.1, r.2 ++ q.2)

/-- An event-loop action: either a transcript line arriving or a
scheduled timeout expiring. -/
inductive Act where
  | line (now : Nat) (l : TLine)
  | fire (now : Nat) (h : Nat)
deriving DecidableEq, Repr

def runActs : List Act → Sys → Sys × List (Nat × Event)
  | [], s => (s, [])
  | Act.line now l :: rest, s =>
      let r := processTranscriptLine now l s
      let q := runActs rest r.1
      (q.1, r.2 ++ q.2)
  | Act.fire now h :: rest, s =>
      let r := fireTimer now h s
      let q := runActs rest r.1
      (q.1, r.2 ++ q.2)

/-- The tool-invocation ids whose start events a line emits: the truthy
ids of the `tool_use` blocks of an assistant record. -/
def startIds (l : TLine) : List String :=
  match l with
  | TLine.parsed (Record.assistant (some blocks)) =>
      blocks.filterMap (fun b => if b.type = "tool_use" then truthyStr b.id else none)
  | _ => []

/-- The tool-invocation ids a line completes: the truthy
`tool_use_id`s of the `tool_result` blocks of a user record with array
content. -/
def resultIds (l : TLine) : List String :=
  match l with
  | TLine.parsed (Record.user (UserContent.arr blocks)) =>
      blocks.filterMap (fun b => if b.type = "tool_result" then truthyStr b.tool_use_id else none)
  | _ => []

/-- `acts.getD i` with a harmless default, giving total indexing into a
timed line sequence. -/
def nthLine (acts : List (Nat × TLine)) (i : Nat) : Nat × TLine :=
  acts.getD i (0, TLine.malformed)

/-- The state after processing the first `i` lines. -/
def prefState (acts : List (Nat × TLine)) (s : Sys) (i : Nat) : Sys :=
  (runRecords (acts.take i) s).1

/-! ## Projection lemmas for the timer operations -/

@[simp] theorem cancelWaitingTimer_agent (s : Sys) : (cancelWaitingTimer s).agent = s.agent := by
  unfold cancelWaitingTimer; cases s.waitingTimer <;> rfl

@[simp] theorem cancelWaitingTimer_waitingTimer (s : Sys) :
    (cancelWaitingTimer s).waitingTimer = none := by
  unfold cancelWaitingTimer
  cases h : s.waitingTimer <;> simp [h]

@[simp] theorem cancelWaitingTimer_permissionTimer (s : Sys) :
    (cancelWaitingTimer s).permissionTimer = s.permissionTimer := by
  unfold cancelWaitingTimer; cases s.waitingTimer <;> rfl

@[simp] theorem cancelWaitingTimer_nextHandle (s : Sys) :
    (cancelWaitingTimer s).nextHandle = s.nextHandle := by
  unfold cancelWaitingTimer; cases s.waitingTimer <;> rfl

@[simp] theorem cancelPermissionTimer_agent (s : Sys) :
    (cancelPermissionTimer s).agent = s.agent := by
  unfold cancelPermissionTimer; cases s.permissionTimer <;> rfl

@[simp] theorem cancelPermissionTimer_permissionTimer (s : Sys) :
    (cancelPermissionTimer s).permissionTimer = none := by
  unfold cancelPermissionTimer
  cases h : s.permissionTimer <;> simp [h]

@[simp] theorem cancelPermissionTimer_waitingTimer (s : Sys) :
    (cancelPermissionTimer s).waitingTimer = s.waitingTimer := by
  unfold cancelPermissionTimer; cases s.permissionTimer <;> rfl

@[simp] theorem cancelPermissionTimer_nextHandle (s : Sys) :
    (cancelPermissionTimer s).nextHandle = s.nextHandle := by
  unfold cancelPermissionTimer; cases s.permissionTimer <;> rfl

@[simp] theorem startWaitingTimer_agent (now d : Nat) (s : Sys) :
    (startWaitingTimer now d s).agent = s.agent := by
  unfold startWaitingTimer; simp

@[simp] theorem startPermissionTimer_agent (now : Nat) (s : Sys) :
    (startPermissionTimer now s).agent = s.agent := by
  unfold startPermissionTimer; simp

@[simp] theorem startPermissionTimer_waitingTimer (now : Nat) (s : Sys) :
    (startPermissionTimer now s).waitingTimer = s.waitingTimer := by
  unfold startPermissionTimer; simp

@[simp] theorem startWaitingTimer_permissionTimer (now d : Nat) (s : Sys) :
    (startWaitingTimer now d s).permissionTimer = s.permissionTimer := by
  unfold startWaitingTimer; simp

/-! ## Claim C7: malformed lines are dropped with no effect -/

/-- Claim C7: an input line that is not valid JSON leaves the entire
agent state (tool sets, sub-task sets, flags, timer handles and the
scheduled timeouts) unchanged and emits no event. -/
theorem claim_C7_malformed_line_noop (now : Nat) (s : Sys) :
    processTranscriptLine now TLine.malformed s = (s, []) := rfl

/-! ## Claim C10: formatToolStatus is total, Bash commands truncated -/

theorem bashCommandDisplay_length_le (cmd : String) :
    (bashCommandDisplay cmd).length ≤ BASH_COMMAND_DISPLAY_MAX_LENGTH + 1 := by
  unfold bashCommandDisplay
  split
  · rw [String.length_append]
    have h1 : (strTake cmd BASH_COMMAND_DISPLAY_MAX_LENGTH).length =
        min BASH_COMMAND_DISPLAY_MAX_LENGTH cmd.toList.length := by
      show (cmd.toList.take BASH_COMMAND_DISPLAY_MAX_LENGTH).length = _
      rw [List.length_take]
    have h2 : ("…" : String).length = 1 := rfl
    rw [h1, h2]
    have := Nat.min_le_left BASH_COMMAND_DISPLAY_MAX_LENGTH cmd.toList.length
    omega
  · next h =>
      omega

theorem formatToolStatus_default (toolName : String) (input : ToolInput)
    (h : toolName ∉ knownToolNames) :
    formatToolStatus toolName input = "Using " ++ toolName := by
  simp only [knownToolNames, List.mem_cons, List.not_mem_nil, or_false, not_or] at h
  obtain ⟨h1, h2, h3, h4, h5, h6, h7, h8, h9, h10, h11, h12⟩ := h
  simp [formatToolStatus, h1, h2, h3, h4, h5, h6, h7, h8, h9, h10, h11, h12]

/-- Claim C10: `formatToolStatus` is total — every unrecognized tool
name falls back to the "Using name" status — and the Bash branch's
command portion never exceeds `BASH_COMMAND_DISPLAY_MAX_LENGTH`
characters plus one appended ellipsis character. -/
theorem claim_C10_formatToolStatus_total_bash_bound (toolName : String) (input : ToolInput) :
    (toolName ∉ knownToolNames → formatToolStatus toolName input = "Using " ++ toolName) ∧
    formatToolStatus "Bash" input = "Running: " ++ bashCommandDisplay (input.command.getD "") ∧
    (bashCommandDisplay (input.command.getD "")).length ≤ BASH_COMMAND_DISPLAY_MAX_LENGTH + 1 := by
  refine ⟨fun h => formatToolStatus_default toolName input h, rfl, bashCommandDisplay_length_le _⟩

/-- Witness for C10 at an unrecognized tool name and a concrete Bash
command. -/
theorem claim_C10_witness :
    formatToolStatus "FooTool" ⟨none, some "make", none⟩ = "Using FooTool" ∧
    formatToolStatus "Bash" ⟨none, some "make", none⟩ =
      "Running: " ++ bashCommandDisplay "make" ∧
    (bashCommandDisplay "make").length ≤ BASH_COMMAND_DISPLAY_MAX_LENGTH + 1 := by
  have h := claim_C10_formatToolStatus_total_bash_bound "FooTool" ⟨none, some "make", none⟩
  exact ⟨h.1 (by decide), h.2.1, h.2.2⟩

/-! ## Claim C8: a user record with no tool_result block resets the turn -/

/-- Claim C8: a user record whose `message.content` is an array with no
`tool_result` block — empty, or text blocks only — triggers the full
new-turn reset: both tool sets and both sub-task maps are emptied,
`isWaiting` and `permissionSent` become false, both timers are
cancelled, and the tools-cleared plus active-status events are emitted,
even though no non-empty text prompt is present. -/
theorem claim_C8_user_array_without_results_resets (now : Nat) (s : Sys)
    (blocks : List ContentBlock) (h : ∀ b ∈ blocks, b.type ≠ "tool_result") :
    (processTranscriptLine now (TLine.parsed (Record.user (UserContent.arr blocks))) s).1.agent =
      { s.agent with
        activeToolIds := [], activeToolStatuses := [], activeToolNames := [],
        activeSubagentToolIds := [], activeSubagentToolNames := [],
        isWaiting := false, permissionSent := false, hadToolsInTurn := false } ∧
    (processTranscriptLine now (TLine.parsed (Record.user (UserContent.arr blocks))) s).1.waitingTimer
      = none ∧
    (processTranscriptLine now (TLine.parsed (Record.user (UserContent.arr blocks))) s).1.permissionTimer
      = none ∧
    (processTranscriptLine now (TLine.parsed (Record.user (UserContent.arr blocks))) s).2 =
      [(now, Event.agentToolsClear), (now, Event.agentStatus "active")] := by
  have hany : blocks.any (fun b => b.type == "tool_result") = false := by
    rw [List.any_eq_false]
    intro b hb
    simpa using h b hb
  simp [processTranscriptLine, processRecord, hany, newTurnReset, clearAgentActivity]

/-- Witness for C8: an array holding a single text block. -/
theorem claim_C8_witness :
    (processTranscriptLine 2
        (TLine.parsed (Record.user (UserContent.arr [⟨"text", none, none, ⟨none, none, none⟩, none⟩])))
        initSys).2 =
      [(2, Event.agentToolsClear), (2, Event.agentStatus "active")] :=
  (claim_C8_user_array_without_results_resets 2 initSys
    [⟨"text", none, none, ⟨none, none, none⟩, none⟩] (by decide)).2.2.2

/-! ## Claim C9: progress records fail closed -/

/-- Claim C9: a progress record that lacks a (truthy) parent id, lacks
a data field, is a liveness pulse whose parent is not in the active
set, or carries sub-task content whose parent is not an active tool
named "Task", leaves the whole system state unchanged and emits no
event. -/
theorem claim_C9_progress_fails_closed (now : Nat) (s : Sys) :
    (∀ data, processTranscriptLine now (TLine.parsed (Record.progress none data)) s = (s, [])) ∧
    (∀ pid, processTranscriptLine now (TLine.parsed (Record.progress pid none)) s = (s, [])) ∧
    (∀ pid d, (d.dtype = some "bash_progress" ∨ d.dtype = some "mcp_progress") →
      smem s.agent.activeToolIds pid = false →
      processTranscriptLine now (TLine.parsed (Record.progress (some pid) (some d))) s = (s, [])) ∧
    (∀ pid d, ¬ (d.dtype = some "bash_progress" ∨ d.dtype = some "mcp_progress") →
      mget s.agent.activeToolNames pid ≠ some "Task" →
      processTranscriptLine now (TLine.parsed (Record.progress (some pid) (some d))) s = (s, [])) := by
  refine ⟨fun data => rfl, ?_, ?_, ?_⟩
  · intro pid
    cases pid with
    | none => rfl
    | some p =>
        simp only [processTranscriptLine, processRecord, processProgressRecord, truthyStr]
        split <;> rfl
  · intro pid d hpulse hmem
    simp only [processTranscriptLine, processRecord, processProgressRecord, truthyStr]
    by_cases hp : pid = ""
    · simp [hp]
    · simp [hp, if_pos hpulse, hmem]
  · intro pid d hpulse htask
    simp only [processTranscriptLine, processRecord, processProgressRecord, truthyStr]
    by_cases hp : pid = ""
    · simp [hp]
    · simp [hp, if_neg hpulse, htask]

/-- Witness for C9 at concrete inputs discharging each guard. -/
theorem claim_C9_witness :
    processTranscriptLine 5 (TLine.parsed (Record.progress none (some ⟨some "bash_progress", none⟩)))
      initSys = (initSys, []) ∧
    processTranscriptLine 5 (TLine.parsed (Record.progress (some "p1") none)) initSys
      = (initSys, []) ∧
    processTranscriptLine 5
      (TLine.parsed (Record.progress (some "p1") (some ⟨some "bash_progress", none⟩))) initSys
      = (initSys, []) ∧
    processTranscriptLine 5
      (TLine.parsed (Record.progress (some "p1") (some ⟨some "agent_progress", none⟩))) initSys
      = (initSys, []) := by
  have h := claim_C9_progress_fails_closed 5 initSys
  exact ⟨h.1 (some ⟨some "bash_progress", none⟩), h.2.1 (some "p1"),
    h.2.2.1 "p1" ⟨some "bash_progress", none⟩ (by decide) (by decide),
    h.2.2.2 "p1" ⟨some "agent_progress", none⟩ (by decide) (by decide)⟩

/-! ## The timer-map invariant -/

/-- The scheduled timeouts of one kind. -/
def kindEntries (s : Sys) (k : TimerKind) : List PendingTimer :=
  s.pendingTimers.filter (fun t => t.kind == k)

/-- Well-formedness of the timer state: handles are below the fresh
counter, every live timeout of a kind is the one recorded in that
kind's map entry, and at most one timeout of each kind is live. -/
def timerInv (s : Sys) : Prop :=
  (∀ t ∈ s.pendingTimers, t.handle < s.nextHandle) ∧
  (∀ t ∈ s.pendingTimers, t.kind = TimerKind.waiting → s.waitingTimer = some t.handle) ∧
  (∀ t ∈ s.pendingTimers, t.kind = TimerKind.permission → s.permissionTimer = some t.handle) ∧
  (kindEntries s TimerKind.waiting).length ≤ 1 ∧
  (kindEntries s TimerKind.permission).length ≤ 1

instance (s : Sys) : Decidable (timerInv s) := by
  unfold timerInv
  infer_instance

theorem cancelWaitingTimer_pending_mem {s : Sys} {t : PendingTimer}
    (h : t ∈ (cancelWaitingTimer s).pendingTimers) :
    t ∈ s.pendingTimers ∧ s.waitingTimer ≠ some t.handle := by
  unfold cancelWaitingTimer at h
  cases hw : s.waitingTimer with
  | none => rw [hw] at h; exact ⟨h, by simp⟩
  | some x =>
      rw [hw] at h
      simp only [List.mem_filter, decide_eq_true_eq] at h
      exact ⟨h.1, by simp [Option.some_inj]; omega⟩

theorem cancelPermissionTimer_pending_mem {s : Sys} {t : PendingTimer}
    (h : t ∈ (cancelPermissionTimer s).pendingTimers) :
    t ∈ s.pendingTimers ∧ s.permissionTimer ≠ some t.handle := by
  unfold cancelPermissionTimer at h
  cases hw : s.permissionTimer with
  | none => rw [hw] at h; exact ⟨h, by simp⟩
  | some x =>
      rw [hw] at h
      simp only [List.mem_filter, decide_eq_true_eq] at h
      exact ⟨h.1, by simp [Option.some_inj]; omega⟩

/-- Cancelling both timers from a well-formed state empties the
scheduler: every live timeout is one of the two kinds and is removed
with its map entry. -/
theorem pending_nil_of_cancel_both (s : Sys) (hinv : timerInv s) :
    (cancelPermissionTimer (cancelWaitingTimer s)).pendingTimers = [] := by
  obtain ⟨-, hw, hp, -, -⟩ := hinv
  rw [List.eq_nil_iff_forall_not_mem]
  intro t ht
  obtain ⟨ht1, hp1⟩ := cancelPermissionTimer_pending_mem ht
  rw [cancelWaitingTimer_permissionTimer] at hp1
  obtain ⟨ht2, hw1⟩ := cancelWaitingTimer_pending_mem ht1
  cases hk : t.kind with
  | waiting => exact hw1 (hw t ht2 hk)
  | permission => exact hp1 (hp t ht2 hk)

/-! ## Claim C1: turn_duration as an idempotent terminal reset -/

def turnDurationLine : TLine :=
  TLine.parsed (Record.system (some "turn_duration"))

theorem cancelWaitingTimer_of_none {s : Sys} (h : s.waitingTimer = none) :
    cancelWaitingTimer s = s := by
  unfold cancelWaitingTimer; rw [h]

theorem cancelPermissionTimer_of_none {s : Sys} (h : s.permissionTimer = none) :
    cancelPermissionTimer s = s := by
  unfold cancelPermissionTimer; rw [h]

/-- A state in which the active set is already empty but a sub-task set
is not: reachable only for the sub-task bookkeeping the claim is about,
and enough to refute the universally quantified claim. -/
def sC1cex : Sys :=
  ⟨⟨[], [], [], [("p", ["s1"])], [], false, true, true⟩, none, none, [], 0⟩

/-- Counterexample to claim C1 as stated: processing `turn_duration`
from a prior state with an empty active-tool set does not clear the
sub-task sets (the source only clears them inside the
`activeToolIds.size > 0` guard), so the resulting sub-task set is not
empty. -/
theorem claim_C1_counterexample :
    (processTranscriptLine 0 turnDurationLine sC1cex).1.agent.activeSubagentToolIds ≠ [] := by
  decide

theorem agent_flags_update_self (a : AgentState) (h1 : a.isWaiting = true)
    (h2 : a.permissionSent = false) (h3 : a.hadToolsInTurn = false) :
    ({ a with isWaiting := true, permissionSent := false, hadToolsInTurn := false } :
      AgentState) = a := by
  cases a
  simp_all

theorem turnDuration_step_pos (now : Nat) (s : Sys) (h : s.agent.activeToolIds.length > 0) :
    processTranscriptLine now turnDurationLine s =
      ({ cancelPermissionTimer (cancelWaitingTimer s) with
          agent := ⟨[], [], [], [], [], true, false, false⟩ },
       [(now, Event.agentToolsClear), (now, Event.agentStatus "waiting")]) := by
  simp [processTranscriptLine, processRecord, turnDurationLine, h]

theorem turnDuration_step_neg (now : Nat) (s : Sys) (h : ¬ s.agent.activeToolIds.length > 0) :
    processTranscriptLine now turnDurationLine s =
      ({ cancelPermissionTimer (cancelWaitingTimer s) with
          agent := { s.agent with
            isWaiting := true, permissionSent := false, hadToolsInTurn := false } },
       [(now, Event.agentStatus "waiting")]) := by
  simp [processTranscriptLine, processRecord, turnDurationLine, h]

/-- Claim C1, amended: `turn_duration` always yields `isWaiting = true`,
cleared flags, an empty active-tool set and both timers cancelled, and
processing it twice equals processing it once; but the sub-task sets
(and the status/name maps) are only cleared when the active-tool set
was non-empty beforehand. -/
theorem claim_C1_amended (now : Nat) (s : Sys) :
    ((processTranscriptLine now turnDurationLine s).1.agent.isWaiting = true) ∧
    ((processTranscriptLine now turnDurationLine s).1.agent.permissionSent = false) ∧
    ((processTranscriptLine now turnDurationLine s).1.agent.hadToolsInTurn = false) ∧
    ((processTranscriptLine now turnDurationLine s).1.agent.activeToolIds = []) ∧
    ((processTranscriptLine now turnDurationLine s).1.waitingTimer = none) ∧
    ((processTranscriptLine now turnDurationLine s).1.permissionTimer = none) ∧
    (s.agent.activeToolIds ≠ [] →
      (processTranscriptLine now turnDurationLine s).1.agent.activeToolStatuses = [] ∧
      (processTranscriptLine now turnDurationLine s).1.agent.activeToolNames = [] ∧
      (processTranscriptLine now turnDurationLine s).1.agent.activeSubagentToolIds = [] ∧
      (processTranscriptLine now turnDurationLine s).1.agent.activeSubagentToolNames = []) ∧
    (timerInv s → (processTranscriptLine now turnDurationLine s).1.pendingTimers = []) ∧
    (∀ now2, processTranscriptLine now2 turnDurationLine
        (processTranscriptLine now turnDurationLine s).1 =
      ((processTranscriptLine now turnDurationLine s).1,
       [(now2, Event.agentStatus "waiting")])) := by
  by_cases h : s.agent.activeToolIds.length > 0
  · rw [turnDuration_step_pos now s h]
    refine ⟨rfl, rfl, rfl, rfl, by simp, by simp, fun _ => ⟨rfl, rfl, rfl, rfl⟩, ?_, ?_⟩
    · intro hinv
      simpa using pending_nil_of_cancel_both s hinv
    · intro now2
      rw [turnDuration_step_neg now2 _ (by simp)]
      rw [cancelWaitingTimer_of_none (by simp), cancelPermissionTimer_of_none (by simp)]
  · rw [turnDuration_step_neg now s h]
    have hnil : s.agent.activeToolIds = [] := by
      cases hc : s.agent.activeToolIds with
      | nil => rfl
      | cons a l => rw [hc] at h; simp at h
    refine ⟨rfl, rfl, rfl, by simp [hnil], by simp, by simp,
      fun hne => absurd hnil hne, ?_, ?_⟩
    · intro hinv
      simpa using pending_nil_of_cancel_both s hinv
    · intro now2
      rw [turnDuration_step_neg now2 _ (by simp [hnil])]
      rw [cancelWaitingTimer_of_none (by simp), cancelPermissionTimer_of_none (by simp)]

/-- A prior state with one active tool, a live sub-task entry and both
timers armed. -/
def sC1wit : Sys :=
  ⟨⟨["t1"], [("t1", "Running subtask")], [("t1", "Task")], [("t1", ["s1"])],
    [("t1", [("s1", "Bash")])], false, true, true⟩,
   some 3, some 4, [⟨3, 100, TimerKind.waiting⟩, ⟨4, 200, TimerKind.permission⟩], 5⟩

/-- Witness for C1 amended: a prior state with one active tool, a live
sub-task entry and both timers armed, where every hypothesis can be
discharged concretely. -/
theorem claim_C1_witness :
    ((processTranscriptLine 9 turnDurationLine sC1wit).1.agent.activeSubagentToolIds = []) ∧
    ((processTranscriptLine 9 turnDurationLine sC1wit).1.pendingTimers = []) ∧
    (processTranscriptLine 11 turnDurationLine (processTranscriptLine 9 turnDurationLine sC1wit).1 =
      ((processTranscriptLine 9 turnDurationLine sC1wit).1,
       [(11, Event.agentStatus "waiting")])) := by
  have h := claim_C1_amended 9 sC1wit
  exact ⟨(h.2.2.2.2.2.2.1 (by decide)).2.2.1, h.2.2.2.2.2.2.2.1 (by decide),
    h.2.2.2.2.2.2.2.2 11⟩

/-! ## Preservation of the timer invariant -/

theorem cancelWaitingTimer_pending_sublist (s : Sys) :
    (cancelWaitingTimer s).pendingTimers.Sublist s.pendingTimers := by
  unfold cancelWaitingTimer
  cases s.waitingTimer with
  | none => exact List.Sublist.refl _
  | some x => exact List.filter_sublist _

theorem cancelPermissionTimer_pending_sublist (s : Sys) :
    (cancelPermissionTimer s).pendingTimers.Sublist s.pendingTimers := by
  unfold cancelPermissionTimer
  cases s.permissionTimer with
  | none => exact List.Sublist.refl _
  | some x => exact List.filter_sublist _

/-- After `cancelWaitingTimer` no waiting-kind timeout is live (under
the invariant: every such timeout carried the cancelled handle). -/
theorem no_waiting_after_cancel (s : Sys)
    (hw : ∀ t ∈ s.pendingTimers, t.kind = TimerKind.waiting → s.waitingTimer = some t.handle) :
    ∀ t ∈ (cancelWaitingTimer s).pendingTimers, t.kind ≠ TimerKind.waiting := by
  intro t ht hk
  obtain ⟨ht1, hne⟩ := cancelWaitingTimer_pending_mem ht
  exact hne (hw t ht1 hk)

theorem no_permission_after_cancel (s : Sys)
    (hp : ∀ t ∈ s.pendingTimers, t.kind = TimerKind.permission → s.permissionTimer = some t.handle) :
    ∀ t ∈ (cancelPermissionTimer s).pendingTimers, t.kind ≠ TimerKind.permission := by
  intro t ht hk
  obtain ⟨ht1, hne⟩ := cancelPermissionTimer_pending_mem ht
  exact hne (hp t ht1 hk)

theorem timerInv_cancelWaitingTimer (s : Sys) (h : timerInv s) :
    timerInv (cancelWaitingTimer s) := by
  obtain ⟨h1, h2, h3, h4, h5⟩ := h
  have hsub := cancelWaitingTimer_pending_sublist s
  refine ⟨?_, ?_, ?_, ?_, ?_⟩
  · intro t ht
    rw [cancelWaitingTimer_nextHandle]
    exact h1 t (hsub.mem ht)
  · intro t ht hk
    exact absurd hk (no_waiting_after_cancel s h2 t ht)
  · intro t ht hk
    rw [cancelWaitingTimer_permissionTimer]
    exact h3 t (hsub.mem ht) hk
  · exact le_trans (List.Sublist.length_le (hsub.filter _)) h4
  · exact le_trans (List.Sublist.length_le (hsub.filter _)) h5

theorem timerInv_cancelPermissionTimer (s : Sys) (h : timerInv s) :
    timerInv (cancelPermissionTimer s) := by
  obtain ⟨h1, h2, h3, h4, h5⟩ := h
  have hsub := cancelPermissionTimer_pending_sublist s
  refine ⟨?_, ?_, ?_, ?_, ?_⟩
  · intro t ht
    rw [cancelPermissionTimer_nextHandle]
    exact h1 t (hsub.mem ht)
  · intro t ht hk
    rw [cancelPermissionTimer_waitingTimer]
    exact h2 t (hsub.mem ht) hk
  · intro t ht hk
    exact absurd hk (no_permission_after_cancel s h3 t ht)
  · exact le_trans (List.Sublist.length_le (hsub.filter _)) h4
  · exact le_trans (List.Sublist.length_le (hsub.filter _)) h5

theorem timerInv_startWaitingTimer (now d : Nat) (s : Sys) (h : timerInv s) :
    timerInv (startWaitingTimer now d s) := by
  have hc := timerInv_cancelWaitingTimer s h
  have hnw := no_waiting_after_cancel s h.2.1
  obtain ⟨h1, h2, h3, h4, h5⟩ := hc
  unfold startWaitingTimer
  refine ⟨?_, ?_, ?_, ?_, ?_⟩
  · intro t ht
    simp only [List.mem_append, List.mem_singleton] at ht
    rcases ht with ht | ht
    · have := h1 t ht
      simp only [cancelWaitingTimer_nextHandle] at this ⊢
      omega
    · subst ht
      simp
  · intro t ht hk
    simp only [List.mem_append, List.mem_singleton] at ht
    rcases ht with ht | ht
    · exact absurd hk (hnw t ht)
    · subst ht
      rfl
  · intro t ht hk
    simp only [List.mem_append, List.mem_singleton] at ht
    rcases ht with ht | ht
    · simpa using h3 t ht hk
    · subst ht
      simp at hk
  · unfold kindEntries
    dsimp only
    rw [List.filter_append]
    have hnil : ((cancelWaitingTimer s).pendingTimers.filter
        (fun t => t.kind == TimerKind.waiting)) = [] := by
      rw [List.filter_eq_nil]
      intro t ht
      simpa using hnw t ht
    rw [hnil]
    simp
  · unfold kindEntries
    dsimp only
    rw [List.filter_append]
    have : (([⟨(cancelWaitingTimer s).nextHandle, now + d, TimerKind.waiting⟩] :
        List PendingTimer).filter (fun t => t.kind == TimerKind.permission)) = [] := by
      simp
    rw [this, List.append_nil]
    exact h5

theorem timerInv_startPermissionTimer (now : Nat) (s : Sys) (h : timerInv s) :
    timerInv (startPermissionTimer now s) := by
  have hc := timerInv_cancelPermissionTimer s h
  have hnp := no_permission_after_cancel s h.2.2.1
  obtain ⟨h1, h2, h3, h4, h5⟩ := hc
  unfold startPermissionTimer
  refine ⟨?_, ?_, ?_, ?_, ?_⟩
  · intro t ht
    simp only [List.mem_append, List.mem_singleton] at ht
    rcases ht with ht | ht
    · have := h1 t ht
      simp only [cancelPermissionTimer_nextHandle] at this ⊢
      omega
    · subst ht
      simp
  · intro t ht hk
    simp only [List.mem_append, List.mem_singleton] at ht
    rcases ht with ht | ht
    · simpa using h2 t ht hk
    · subst ht
      simp at hk
  · intro t ht hk
    simp only [List.mem_append, List.mem_singleton] at ht
    rcases ht with ht | ht
    · exact absurd hk (hnp t ht)
    · subst ht
      rfl
  · unfold kindEntries
    dsimp only
    rw [List.filter_append]
    have : (([⟨(cancelPermissionTimer s).nextHandle, now + PERMISSION_TIMER_DELAY_MS,
        TimerKind.permission⟩] : List PendingTimer).filter
          (fun t => t.kind == TimerKind.waiting)) = [] := by
      simp
    rw [this, List.append_nil]
    exact h4
  · unfold kindEntries
    dsimp only
    rw [List.filter_append]
    have hnil : ((cancelPermissionTimer s).pendingTimers.filter
        (fun t => t.kind == TimerKind.permission)) = [] := by
      rw [List.filter_eq_nil]
      intro t ht
      simpa using hnp t ht
    rw [hnil]
    simp

theorem timerInv_fireTimer (now h : Nat) (s : Sys) (hinv : timerInv s) :
    timerInv (fireTimer now h s).1 := by
  unfold fireTimer
  cases hf : s.pendingTimers.find? (fun t => t.handle == h) with
  | none => exact hinv
  | some t =>
      dsimp only
      have htmem : t ∈ s.pendingTimers := List.mem_of_find?_eq_some hf
      have hth : t.handle = h := by
        have := List.find?_some hf
        simpa using this
      obtain ⟨h1, h2, h3, h4, h5⟩ := hinv
      have hmem_filter : ∀ u, u ∈ s.pendingTimers.filter (fun v => v.handle ≠ h) →
          u ∈ s.pendingTimers ∧ u.handle ≠ h := by
        intro u hu
        simpa [List.mem_filter] using hu
      have hsub : (s.pendingTimers.filter (fun v => v.handle ≠ h)).Sublist s.pendingTimers :=
        List.filter_sublist _
      by_cases hd : t.due ≤ now
      · rw [if_pos hd]
        cases hk : t.kind with
        | waiting =>
            dsimp only [fireWaitingBody]
            refine ⟨?_, ?_, ?_, ?_, ?_⟩
            · intro u hu
              exact h1 u (hsub.mem hu)
            · intro u hu hku
              obtain ⟨hu1, hu2⟩ := hmem_filter u hu
              have hwu := h2 u hu1 hku
              have hwt := h2 t htmem hk
              rw [hwt] at hwu
              exact absurd (by rw [← hth]; exact (Option.some_inj.mp hwu).symm) hu2
            · intro u hu hku
              exact h3 u ((hmem_filter u hu).1) hku
            · exact le_trans (List.Sublist.length_le ((hsub).filter _)) h4
            · exact le_trans (List.Sublist.length_le ((hsub).filter _)) h5
        | permission =>
            dsimp only [firePermissionBody]
            have base : timerInv
                { s with
                  pendingTimers := s.pendingTimers.filter (fun v => v.handle ≠ h),
                  permissionTimer := none } := by
              refine ⟨?_, ?_, ?_, ?_, ?_⟩
              · intro u hu
                exact h1 u (hsub.mem hu)
              · intro u hu hku
                exact h2 u ((hmem_filter u hu).1) hku
              · intro u hu hku
                obtain ⟨hu1, hu2⟩ := hmem_filter u hu
                have hwu := h3 u hu1 hku
                have hwt := h3 t htmem hk
                rw [hwt] at hwu
                exact absurd (by rw [← hth]; exact (Option.some_inj.mp hwu).symm) hu2
              · exact le_trans (List.Sublist.length_le ((hsub).filter _)) h4
              · exact le_trans (List.Sublist.length_le ((hsub).filter _)) h5
            split
            · exact base
            · exact base
      · rw [if_neg hd]
        exact ⟨h1, h2, h3, h4, h5⟩

/-- The timer invariant is preserved by processing any transcript
line. -/
theorem timerInv_processTranscriptLine (now : Nat) (l : TLine) (s : Sys) (h : timerInv s) :
    timerInv (processTranscriptLine now l s).1 := by
  cases l with
  | malformed => exact h
  | parsed r =>
      cases r with
      | otherKind => exact h
      | assistant content =>
          cases content with
          | none => exact h
          | some blocks =>
              dsimp only [processTranscriptLine, processRecord]
              split
              · split
                · exact timerInv_startPermissionTimer _ _ (timerInv_cancelWaitingTimer _ h)
                · exact timerInv_cancelWaitingTimer _ h
              · split
                · exact timerInv_startWaitingTimer _ _ _ h
                · exact h
      | system subtype =>
          dsimp only [processTranscriptLine, processRecord]
          split
          · exact timerInv_cancelPermissionTimer _ (timerInv_cancelWaitingTimer _ h)
          · exact h
      | user content =>
          cases content with
          | other => exact h
          | str txt =>
              dsimp only [processTranscriptLine, processRecord]
              split
              · exact timerInv_cancelPermissionTimer _ (timerInv_cancelWaitingTimer _ h)
              · exact h
          | arr blocks =>
              dsimp only [processTranscriptLine, processRecord]
              split
              · exact h
              · exact timerInv_cancelPermissionTimer _ (timerInv_cancelWaitingTimer _ h)
      | progress pid data =>
          dsimp only [processTranscriptLine, processRecord, processProgressRecord]
          cases truthyStr pid with
          | none => exact h
          | some parentToolId =>
              cases data with
              | none => exact h
              | some d =>
                  dsimp only
                  split
                  · split
                    · exact timerInv_startPermissionTimer _ _ h
                    · exact h
                  · split
                    · cases hm : d.message with
                      | none => exact h
                      | some msg =>
                          dsimp only
                          cases hmm : msg.message with
                          | none => exact h
                          | some inner =>
                              dsimp only
                              cases hc : inner.content with
                              | none => exact h
                              | some content =>
                                  dsimp only
                                  split
                                  · split
                                    · exact timerInv_startPermissionTimer _ _ h
                                    · exact h
                                  · split
                                    · split
                                      · exact timerInv_startPermissionTimer _ _ h
                                      · exact h
                                    · exact h
                    · exact h

/-! ## Claim C5: at most one live timer per kind, restart replaces -/

theorem startWaitingTimer_pending (now d : Nat) (s : Sys) :
    (startWaitingTimer now d s).pendingTimers =
      (cancelWaitingTimer s).pendingTimers ++ [⟨s.nextHandle, now + d, TimerKind.waiting⟩] := by
  unfold startWaitingTimer
  simp

@[simp] theorem startWaitingTimer_waitingTimer (now d : Nat) (s : Sys) :
    (startWaitingTimer now d s).waitingTimer = some s.nextHandle := by
  unfold startWaitingTimer
  simp

@[simp] theorem startWaitingTimer_nextHandle (now d : Nat) (s : Sys) :
    (startWaitingTimer now d s).nextHandle = s.nextHandle + 1 := by
  unfold startWaitingTimer
  simp

theorem startPermissionTimer_pending (now : Nat) (s : Sys) :
    (startPermissionTimer now s).pendingTimers =
      (cancelPermissionTimer s).pendingTimers ++
        [⟨s.nextHandle, now + PERMISSION_TIMER_DELAY_MS, TimerKind.permission⟩] := by
  unfold startPermissionTimer
  simp

@[simp] theorem startPermissionTimer_permissionTimer (now : Nat) (s : Sys) :
    (startPermissionTimer now s).permissionTimer = some s.nextHandle := by
  unfold startPermissionTimer
  simp

@[simp] theorem startPermissionTimer_nextHandle (now : Nat) (s : Sys) :
    (startPermissionTimer now s).nextHandle = s.nextHandle + 1 := by
  unfold startPermissionTimer
  simp

theorem cancelWaitingTimer_pending_of_some {s : Sys} {hdl : Nat} (h : s.waitingTimer = some hdl) :
    (cancelWaitingTimer s).pendingTimers =
      s.pendingTimers.filter (fun t => t.handle ≠ hdl) := by
  unfold cancelWaitingTimer
  rw [h]

theorem cancelPermissionTimer_pending_of_some {s : Sys} {hdl : Nat}
    (h : s.permissionTimer = some hdl) :
    (cancelPermissionTimer s).pendingTimers =
      s.pendingTimers.filter (fun t => t.handle ≠ hdl) := by
  unfold cancelPermissionTimer
  rw [h]

theorem startWaitingTimer_twice (t1 d1 t2 d2 : Nat) (s : Sys) (hinv : timerInv s) :
    (startWaitingTimer t2 d2 (startWaitingTimer t1 d1 s)).pendingTimers =
      (cancelWaitingTimer s).pendingTimers ++
        [⟨s.nextHandle + 1, t2 + d2, TimerKind.waiting⟩] := by
  have hcwA : (cancelWaitingTimer (startWaitingTimer t1 d1 s)).pendingTimers
      = (cancelWaitingTimer s).pendingTimers := by
    rw [cancelWaitingTimer_pending_of_some (startWaitingTimer_waitingTimer t1 d1 s),
      startWaitingTimer_pending, List.filter_append]
    have h1 : ((cancelWaitingTimer s).pendingTimers.filter
        (fun t => t.handle ≠ s.nextHandle)) = (cancelWaitingTimer s).pendingTimers := by
      rw [List.filter_eq_self]
      intro u hu
      have hlt := (timerInv_cancelWaitingTimer s hinv).1 u hu
      rw [cancelWaitingTimer_nextHandle] at hlt
      simp only [decide_eq_true_eq]
      omega
    have h2 : (([⟨s.nextHandle, t1 + d1, TimerKind.waiting⟩] : List PendingTimer).filter
        (fun t => t.handle ≠ s.nextHandle)) = [] := by
      simp
    rw [h1, h2, List.append_nil]
  rw [startWaitingTimer_pending, hcwA, startWaitingTimer_nextHandle]

theorem startPermissionTimer_twice (t1 t2 : Nat) (s : Sys) (hinv : timerInv s) :
    (startPermissionTimer t2 (startPermissionTimer t1 s)).pendingTimers =
      (cancelPermissionTimer s).pendingTimers ++
        [⟨s.nextHandle + 1, t2 + PERMISSION_TIMER_DELAY_MS, TimerKind.permission⟩] := by
  have hcwA : (cancelPermissionTimer (startPermissionTimer t1 s)).pendingTimers
      = (cancelPermissionTimer s).pendingTimers := by
    rw [cancelPermissionTimer_pending_of_some (startPermissionTimer_permissionTimer t1 s),
      startPermissionTimer_pending, List.filter_append]
    have h1 : ((cancelPermissionTimer s).pendingTimers.filter
        (fun t => t.handle ≠ s.nextHandle)) = (cancelPermissionTimer s).pendingTimers := by
      rw [List.filter_eq_self]
      intro u hu
      have hlt := (timerInv_cancelPermissionTimer s hinv).1 u hu
      rw [cancelPermissionTimer_nextHandle] at hlt
      simp only [decide_eq_true_eq]
      omega
    have h2 : (([⟨s.nextHandle, t1 + PERMISSION_TIMER_DELAY_MS, TimerKind.permission⟩] :
        List PendingTimer).filter (fun t => t.handle ≠ s.nextHandle)) = [] := by
      simp
    rw [h1, h2, List.append_nil]
  rw [startPermissionTimer_pending, hcwA, startPermissionTimer_nextHandle]

/-- A fire attempt at a handle absent from the scheduler is a no-op. -/
theorem fireTimer_of_absent (now hdl : Nat) (s : Sys)
    (h : ∀ t ∈ s.pendingTimers, t.handle ≠ hdl) :
    fireTimer now hdl s = (s, []) := by
  unfold fireTimer
  have hfind : s.pendingTimers.find? (fun t => t.handle == hdl) = none := by
    rw [List.find?_eq_none]
    intro t ht
    simpa using h t ht
  rw [hfind]

/-- Claim C5: for each timer kind, at most one live timer exists per
agent; the invariant guaranteeing this is preserved by every
transcript line and every timer expiry; and in the start-A-then-start-B
scenario only B remains live — firing A's handle afterwards is a
no-op, for both the waiting and the permission kind. -/
theorem claim_C5_single_timer_per_kind (s : Sys) (hinv : timerInv s) :
    ((kindEntries s TimerKind.waiting).length ≤ 1 ∧
     (kindEntries s TimerKind.permission).length ≤ 1) ∧
    (∀ now l, timerInv (processTranscriptLine now l s).1) ∧
    (∀ now hdl, timerInv (fireTimer now hdl s).1) ∧
    (∀ t1 d1 t2 d2,
      ((startWaitingTimer t2 d2 (startWaitingTimer t1 d1 s)).pendingTimers.filter
          (fun t => t.kind == TimerKind.waiting)) =
        [⟨s.nextHandle + 1, t2 + d2, TimerKind.waiting⟩] ∧
      (∀ now3, fireTimer now3 s.nextHandle (startWaitingTimer t2 d2 (startWaitingTimer t1 d1 s)) =
        (startWaitingTimer t2 d2 (startWaitingTimer t1 d1 s), []))) ∧
    (∀ t1 t2,
      ((startPermissionTimer t2 (startPermissionTimer t1 s)).pendingTimers.filter
          (fun t => t.kind == TimerKind.permission)) =
        [⟨s.nextHandle + 1, t2 + PERMISSION_TIMER_DELAY_MS, TimerKind.permission⟩] ∧
      (∀ now3, fireTimer now3 s.nextHandle (startPermissionTimer t2 (startPermissionTimer t1 s)) =
        (startPermissionTimer t2 (startPermissionTimer t1 s), []))) := by
  refine ⟨⟨hinv.2.2.2.1, hinv.2.2.2.2⟩,
    fun now l => timerInv_processTranscriptLine now l s hinv,
    fun now hdl => timerInv_fireTimer now hdl s hinv, ?_, ?_⟩
  · intro t1 d1 t2 d2
    have hB := startWaitingTimer_twice t1 d1 t2 d2 s hinv
    constructor
    · rw [hB, List.filter_append]
      have h1 : ((cancelWaitingTimer s).pendingTimers.filter
          (fun t => t.kind == TimerKind.waiting)) = [] := by
        rw [List.filter_eq_nil_iff]
        intro t ht
        simpa using no_waiting_after_cancel s hinv.2.1 t ht
      rw [h1]
      simp
    · intro now3
      apply fireTimer_of_absent
      rw [hB]
      intro t ht
      rcases List.mem_append.mp ht with ht | ht
      · have hlt := (timerInv_cancelWaitingTimer s hinv).1 t ht
        rw [cancelWaitingTimer_nextHandle] at hlt
        omega
      · rw [List.mem_singleton] at ht
        subst ht
        simp
  · intro t1 t2
    have hB := startPermissionTimer_twice t1 t2 s hinv
    constructor
    · rw [hB, List.filter_append]
      have h1 : ((cancelPermissionTimer s).pendingTimers.filter
          (fun t => t.kind == TimerKind.permission)) = [] := by
        rw [List.filter_eq_nil_iff]
        intro t ht
        simpa using no_permission_after_cancel s hinv.2.2.1 t ht
      rw [h1]
      simp
    · intro now3
      apply fireTimer_of_absent
      rw [hB]
      intro t ht
      rcases List.mem_append.mp ht with ht | ht
      · have hlt := (timerInv_cancelPermissionTimer s hinv).1 t ht
        rw [cancelPermissionTimer_nextHandle] at hlt
        omega
      · rw [List.mem_singleton] at ht
        subst ht
        simp

/-- Witness for C5 at the initial system state. -/
theorem claim_C5_witness :
    ((startWaitingTimer 1 5 (startWaitingTimer 0 5 initSys)).pendingTimers.filter
        (fun t => t.kind == TimerKind.waiting)) =
      [⟨1, 6, TimerKind.waiting⟩] ∧
    fireTimer 99 0 (startWaitingTimer 1 5 (startWaitingTimer 0 5 initSys)) =
      (startWaitingTimer 1 5 (startWaitingTimer 0 5 initSys), []) ∧
    timerInv (processTranscriptLine 0 turnDurationLine initSys).1 := by
  have h := claim_C5_single_timer_per_kind initSys (by decide)
  exact ⟨(h.2.2.2.1 0 5 1 5).1, (h.2.2.2.1 0 5 1 5).2 99, h.2.1 0 turnDurationLine⟩

/-! ## Claim C4: stall notifications within one episode -/

/-- An assistant record starting one non-exempt Bash tool `t1`. -/
def bashStartLine : TLine :=
  TLine.parsed (Record.assistant
    (some [⟨"tool_use", some "t1", some "Bash", ⟨none, some "make", none⟩, none⟩]))

/-- A `bash_progress` liveness pulse for `t1`, which restarts the stall
timer. -/
def bashPulseLine : TLine :=
  TLine.parsed (Record.progress (some "t1") (some ⟨some "bash_progress", none⟩))

/-- Start a Bash tool, let the stall timer fire, receive a liveness
pulse (restarting the timer), let it fire again. -/
def stallCexActs : List Act :=
  [Act.line 0 bashStartLine, Act.fire 7000 0, Act.line 7001 bashPulseLine, Act.fire 14001 1]

/-- Counterexample to claim C4 as stated: after the first stall firing
sets `permissionSent = true`, the flag is never reset during the rest
of the run, yet a second stall event is emitted — the callback never
consults `permissionSent`, so the flag does not prevent duplicate
emission within one episode. -/
theorem claim_C4_counterexample :
    ((runActs (stallCexActs.take 2) initSys).1.agent.permissionSent = true) ∧
    ((runActs (stallCexActs.take 3) initSys).1.agent.permissionSent = true) ∧
    ((runActs stallCexActs initSys).1.agent.permissionSent = true) ∧
    (((runActs stallCexActs initSys).2.filter
        (fun te => te.2 == Event.agentToolPermission)).length = 2) := by
  decide

/-- Claim C4, amended: one firing of the stall timer emits at most one
agent-level stall event, and a handle that actually fired is consumed
(it is no longer pending, so the same arming can never emit twice);
duplicate stall events within one episode are only possible through a
restart of the timer, because the callback never reads
`permissionSent` back. -/
theorem claim_C4_amended (s : Sys) (now hdl : Nat) :
    (((fireTimer now hdl s).2.filter
        (fun te => te.2 == Event.agentToolPermission)).length ≤ 1) ∧
    (∀ t ∈ (fireTimer now hdl s).1.pendingTimers, t.handle = hdl →
      fireTimer now hdl s = (s, [])) := by
  unfold fireTimer
  cases hf : s.pendingTimers.find? (fun t => t.handle == hdl) with
  | none =>
      exact ⟨by simp, fun t ht hh => rfl⟩
  | some t =>
      dsimp only
      by_cases hd : t.due ≤ now
      · rw [if_pos hd]
        cases hk : t.kind with
        | waiting =>
            dsimp only [fireWaitingBody]
            refine ⟨by simp, ?_⟩
            intro u hu hh
            simp only [List.mem_filter, decide_eq_true_eq] at hu
            exact absurd hh hu.2
        | permission =>
            dsimp only [firePermissionBody]
            have hnil : (((stuckSubagentParents s.agent).map
                Event.subagentToolPermission).map (fun e => (now, e))).filter
                  (fun te => te.2 == Event.agentToolPermission) = [] := by
              rw [List.filter_eq_nil_iff]
              intro te hte
              obtain ⟨p, hp, rfl⟩ := by simpa [List.map_map] using hte
              simp
            constructor
            · split
              · simp only [List.map_cons, List.filter_cons]
                rw [hnil]
                simp
              · simp
            · intro u hu hh
              have hu2 : u ∈ s.pendingTimers.filter (fun v => v.handle ≠ hdl) := by
                revert hu
                split <;> intro hu <;> simpa using hu
              simp only [List.mem_filter, decide_eq_true_eq] at hu2
              exact absurd hh hu2.2
      · rw [if_neg hd]
        exact ⟨by simp, fun u hu hh => rfl⟩

/-- A state with one pending permission timeout that is not yet due. -/
def sC4wit : Sys :=
  ⟨initAgent, none, some 5, [⟨5, 100, TimerKind.permission⟩], 6⟩

/-- Witness for C4 amended: a premature fire attempt is a no-op and
emits at most one stall event. -/
theorem claim_C4_witness :
    (((fireTimer 50 5 sC4wit).2.filter
        (fun te => te.2 == Event.agentToolPermission)).length ≤ 1) ∧
    fireTimer 50 5 sC4wit = (sC4wit, []) := by
  have h := claim_C4_amended sC4wit 50 5
  refine ⟨h.1, h.2 ⟨5, 100, TimerKind.permission⟩ (by decide) rfl⟩

/-! ## Claim C2: completed invocations never linger in the active set -/

theorem mem_sadd {s : List String} {x y : String} : x ∈ sadd s y ↔ x ∈ s ∨ x = y := by
  unfold sadd
  split
  · next h =>
      have hy : y ∈ s := by simpa using h
      constructor
      · exact Or.inl
      · rintro (hx | rfl)
        · exact hx
        · exact hy
  · simp

theorem mem_sdel {s : List String} {x y : String} : x ∈ sdel s y ↔ x ∈ s ∧ x ≠ y := by
  unfold sdel
  simp [List.mem_filter]

/-- The truthy `tool_use` ids of a block list. -/
def blockUseIds (bs : List ContentBlock) : List String :=
  bs.filterMap (fun b => if b.type = "tool_use" then truthyStr b.id else none)

/-- The truthy `tool_result` ids of a block list. -/
def blockResultIds (bs : List ContentBlock) : List String :=
  bs.filterMap (fun b => if b.type = "tool_result" then truthyStr b.tool_use_id else none)

theorem startIds_assistant (blocks : List ContentBlock) :
    startIds (TLine.parsed (Record.assistant (some blocks))) = blockUseIds blocks := rfl

theorem resultIds_user (blocks : List ContentBlock) :
    resultIds (TLine.parsed (Record.user (UserContent.arr blocks))) = blockResultIds blocks := rfl

theorem addOneToolUse_activeToolIds (a : AgentState) (b : ContentBlock) (x : String) :
    x ∈ (addOneToolUse a b).1.activeToolIds ↔
      x ∈ a.activeToolIds ∨ (b.type = "tool_use" ∧ truthyStr b.id = some x) := by
  unfold addOneToolUse
  by_cases ht : b.type = "tool_use"
  · rw [if_pos ht]
    cases hid : truthyStr b.id with
    | none => simp [ht, hid]
    | some i =>
        dsimp only
        rw [mem_sadd]
        simp [ht, hid, eq_comm]
  · rw [if_neg ht]
    simp [ht]

theorem addToolUses_activeToolIds (bs : List ContentBlock) (a : AgentState) (x : String) :
    x ∈ (addToolUses a bs).1.activeToolIds ↔ x ∈ a.activeToolIds ∨ x ∈ blockUseIds bs := by
  induction bs generalizing a with
  | nil => simp [addToolUses, blockUseIds]
  | cons b rest ih =>
      show x ∈ (addToolUses (addOneToolUse a b).1 rest).1.activeToolIds ↔ _
      rw [ih, addOneToolUse_activeToolIds]
      unfold blockUseIds
      rw [List.filterMap_cons]
      by_cases ht : b.type = "tool_use"
      · rw [if_pos ht]
        cases hid : truthyStr b.id with
        | none => simp [ht]
        | some i =>
            simp only [List.mem_cons, ht, true_and, Option.some_inj]
            rw [@eq_comm _ i x]
            tauto
      · rw [if_neg ht]
        simp [ht]

theorem processOneToolResult_activeToolIds (now : Nat) (a : AgentState) (b : ContentBlock)
    (x : String) :
    x ∈ (processOneToolResult now a b).1.activeToolIds ↔
      x ∈ a.activeToolIds ∧ ¬ (b.type = "tool_result" ∧ truthyStr b.tool_use_id = some x) := by
  unfold processOneToolResult
  by_cases ht : b.type = "tool_result"
  · rw [if_pos ht]
    cases hid : truthyStr b.tool_use_id with
    | none => simp [ht, hid]
    | some i =>
        dsimp only
        split
        · rw [mem_sdel]
          simp [ht, hid, eq_comm]
        · rw [mem_sdel]
          simp [ht, hid, eq_comm]
  · rw [if_neg ht]
    simp [ht]

theorem processToolResults_activeToolIds (bs : List ContentBlock) (now : Nat) (a : AgentState)
    (x : String) :
    x ∈ (processToolResults now a bs).1.activeToolIds ↔
      x ∈ a.activeToolIds ∧ x ∉ blockResultIds bs := by
  induction bs generalizing a with
  | nil => simp [processToolResults, blockResultIds]
  | cons b rest ih =>
      show x ∈ (processToolResults now (processOneToolResult now a b).1 rest).1.activeToolIds ↔ _
      rw [ih, processOneToolResult_activeToolIds]
      unfold blockResultIds
      rw [List.filterMap_cons]
      by_cases ht : b.type = "tool_result"
      · rw [if_pos ht]
        cases hid : truthyStr b.tool_use_id with
        | none => simp [ht]
        | some i =>
            simp only [List.mem_cons, ht, true_and, Option.some_inj, not_or]
            rw [@eq_comm _ i x]
            tauto
      · rw [if_neg ht]
        simp [ht]

theorem addOneSubTool_activeToolIds (parent : String) (a : AgentState) (b : ContentBlock) :
    (addOneSubTool parent a b).1.activeToolIds = a.activeToolIds := by
  unfold addOneSubTool
  by_cases ht : b.type = "tool_use"
  · rw [if_pos ht]
    cases hid : truthyStr b.id <;> rfl
  · rw [if_neg ht]

theorem addSubTools_activeToolIds (bs : List ContentBlock) (parent : String) (a : AgentState) :
    (addSubTools parent a bs).1.activeToolIds = a.activeToolIds := by
  induction bs generalizing a with
  | nil => rfl
  | cons b rest ih =>
      show (addSubTools parent (addOneSubTool parent a b).1 rest).1.activeToolIds = _
      rw [ih, addOneSubTool_activeToolIds]

theorem removeOneSubTool_activeToolIds (now : Nat) (parent : String) (a : AgentState)
    (b : ContentBlock) :
    (removeOneSubTool now parent a b).1.activeToolIds = a.activeToolIds := by
  unfold removeOneSubTool
  by_cases ht : b.type = "tool_result"
  · rw [if_pos ht]
    cases hid : truthyStr b.tool_use_id with
    | none => rfl
    | some i =>
        dsimp only
        cases mget a.activeSubagentToolIds parent <;>
          cases mget a.activeSubagentToolNames parent <;> rfl
  · rw [if_neg ht]

theorem removeSubTools_activeToolIds (bs : List ContentBlock) (now : Nat) (parent : String)
    (a : AgentState) :
    (removeSubTools now parent a bs).1.activeToolIds = a.activeToolIds := by
  induction bs generalizing a with
  | nil => rfl
  | cons b rest ih =>
      show (removeSubTools now parent (removeOneSubTool now parent a b).1 rest).1.activeToolIds = _
      rw [ih, removeOneSubTool_activeToolIds]

theorem processProgressRecord_activeToolIds (now : Nat) (pid : Option String)
    (data : Option ProgressData) (s : Sys) :
    (processProgressRecord now pid data s).1.agent.activeToolIds = s.agent.activeToolIds := by
  unfold processProgressRecord
  cases truthyStr pid with
  | none => rfl
  | some parentToolId =>
      cases data with
      | none => rfl
      | some d =>
          dsimp only
          split
          · split
            · rw [startPermissionTimer_agent]
            · rfl
          · split
            · cases d.message with
              | none => rfl
              | some msg =>
                  dsimp only
                  cases msg.message with
                  | none => rfl
                  | some inner =>
                      dsimp only
                      cases inner.content with
                      | none => rfl
                      | some content =>
                          dsimp only
                          split
                          · split
                            · rw [startPermissionTimer_agent]
                              exact addSubTools_activeToolIds content parentToolId s.agent
                            · exact addSubTools_activeToolIds content parentToolId s.agent
                          · split
                            · split
                              · rw [startPermissionTimer_agent]
                                exact removeSubTools_activeToolIds content now parentToolId s.agent
                              · exact removeSubTools_activeToolIds content now parentToolId s.agent
                            · rfl
            · rfl

theorem newTurnReset_activeToolIds (now : Nat) (s : Sys) :
    (newTurnReset now s).1.agent.activeToolIds = [] := by
  unfold newTurnReset clearAgentActivity
  simp

/-- Master step lemma for the active set: an id active after a line was
either active before or started by the line, and is never an id the
line completed. -/
theorem active_after_step (now : Nat) (l : TLine) (s : Sys) (x : String)
    (hx : x ∈ (processTranscriptLine now l s).1.agent.activeToolIds) :
    (x ∈ s.agent.activeToolIds ∨ x ∈ startIds l) ∧ x ∉ resultIds l := by
  cases l with
  | malformed => exact ⟨Or.inl hx, by simp [resultIds]⟩
  | parsed r =>
      cases r with
      | otherKind => exact ⟨Or.inl hx, by simp [resultIds]⟩
      | assistant content =>
          cases content with
          | none => exact ⟨Or.inl hx, by simp [resultIds]⟩
          | some blocks =>
              refine ⟨?_, by simp [resultIds]⟩
              dsimp only [processTranscriptLine, processRecord] at hx
              rw [startIds_assistant]
              by_cases huse : blocks.any (fun b => b.type == "tool_use") = true
              · rw [if_pos huse] at hx
                dsimp only at hx
                rcases hsplit : (addToolUses
                    { (cancelWaitingTimer s).agent with
                      isWaiting := false, hadToolsInTurn := true } blocks).2.2 with hb | hb
                all_goals
                  rw [hsplit] at hx
                · simp only [Bool.false_eq_true, if_false] at hx
                  rw [addToolUses_activeToolIds] at hx
                  simpa [cancelWaitingTimer_agent] using hx
                · simp only [if_true] at hx
                  rw [startPermissionTimer_agent] at hx
                  rw [addToolUses_activeToolIds] at hx
                  simpa [cancelWaitingTimer_agent] using hx
              · rw [if_neg huse] at hx
                split at hx
                · rw [startWaitingTimer_agent] at hx
                  exact Or.inl hx
                · exact Or.inl hx
      | system subtype =>
          refine ⟨?_, by simp [resultIds]⟩
          dsimp only [processTranscriptLine, processRecord] at hx
          split at hx
          · dsimp only at hx
            split at hx
            · simp at hx
            · exact Or.inl (by simpa using hx)
          · exact Or.inl hx
      | progress pid data =>
          rw [show processTranscriptLine now (TLine.parsed (Record.progress pid data)) s =
            processProgressRecord now pid data s from rfl] at hx
          rw [processProgressRecord_activeToolIds] at hx
          exact ⟨Or.inl hx, by simp [resultIds]⟩
      | user content =>
          cases content with
          | other => exact ⟨Or.inl hx, by simp [resultIds]⟩
          | str txt =>
              refine ⟨?_, by simp [resultIds]⟩
              dsimp only [processTranscriptLine, processRecord] at hx
              split at hx
              · rw [newTurnReset_activeToolIds] at hx
                simp at hx
              · exact Or.inl hx
          | arr blocks =>
              dsimp only [processTranscriptLine, processRecord] at hx
              rw [resultIds_user]
              by_cases hres : blocks.any (fun b => b.type == "tool_result") = true
              · rw [if_pos hres] at hx
                dsimp only at hx
                have hx2 : x ∈ (processToolResults now s.agent blocks).1.activeToolIds := by
                  revert hx
                  split <;> intro hx <;> simpa using hx
                rw [processToolResults_activeToolIds] at hx2
                exact ⟨Or.inl hx2.1, hx2.2⟩
              · rw [if_neg hres] at hx
                rw [newTurnReset_activeToolIds] at hx
                simp at hx

theorem prefState_zero (acts : List (Nat × TLine)) (s : Sys) : prefState acts s 0 = s := rfl

theorem nthLine_cons_succ (a : Nat × TLine) (rest : List (Nat × TLine)) (i : Nat) :
    nthLine (a :: rest) (i + 1) = nthLine rest i := rfl

theorem nthLine_cons_zero (a : Nat × TLine) (rest : List (Nat × TLine)) :
    nthLine (a :: rest) 0 = a := rfl

theorem prefState_cons_succ (a : Nat × TLine) (rest : List (Nat × TLine)) (s : Sys) (i : Nat) :
    prefState (a :: rest) s (i + 1) =
      prefState rest (processTranscriptLine a.1 a.2 s).1 i := by
  unfold prefState
  rw [List.take_succ_cons]
  rfl

theorem prefState_succ (acts : List (Nat × TLine)) (s : Sys) (i : Nat) (h : i < acts.length) :
    prefState acts s (i + 1) =
      (processTranscriptLine (nthLine acts i).1 (nthLine acts i).2 (prefState acts s i)).1 := by
  induction acts generalizing s i with
  | nil => simp at h
  | cons a rest ih =>
      cases i with
      | zero =>
          rw [prefState_cons_succ, prefState_zero, prefState_zero, nthLine_cons_zero]
      | succ j =>
          have hj : j < rest.length := by simpa using h
          rw [prefState_cons_succ, ih _ j hj, nthLine_cons_succ, prefState_cons_succ]

/-- Claim C2: for every sequence of well-formed records (no tool-use
for an id ever occurs after a tool-result for that same id), after any
prefix the active set contains no id whose matching tool-result was
already fully processed earlier in the prefix. -/
theorem claim_C2_no_completed_id_active (acts : List (Nat × TLine)) (s0 : Sys)
    (hwf : ∀ j, j < acts.length → ∀ i, i < j →
      ∀ x ∈ resultIds (nthLine acts i).2, x ∉ startIds (nthLine acts j).2) :
    ∀ k, k ≤ acts.length → ∀ x,
      (∃ i, i < k ∧ x ∈ resultIds (nthLine acts i).2) →
      x ∉ (prefState acts s0 k).agent.activeToolIds := by
  intro k
  induction k with
  | zero =>
      rintro - x ⟨i, hi, -⟩
      exact absurd hi (Nat.not_lt_zero i)
  | succ n ih =>
      rintro hk x ⟨i, hi, hxres⟩ hxactive
      have hn : n < acts.length := Nat.lt_of_lt_of_le (Nat.lt_succ_self n) hk
      rw [prefState_succ acts s0 n hn] at hxactive
      obtain ⟨hin, hnotres⟩ := active_after_step _ _ _ _ hxactive
      rcases Nat.lt_succ_iff_lt_or_eq.mp hi with hilt | rfl
      · rcases hin with hold | hstart
        · exact ih (Nat.le_of_lt hn) x ⟨i, hilt, hxres⟩ hold
        · exact hwf n hn i hilt x hxres hstart
      · exact hnotres hxres

/-- A two-record run: start `t1` with a Read tool, then complete it. -/
def c2acts : List (Nat × TLine) :=
  [(0, TLine.parsed (Record.assistant
      (some [⟨"tool_use", some "t1", some "Read", ⟨some "/a/b.py", none, none⟩, none⟩]))),
   (5, TLine.parsed (Record.user (UserContent.arr
      [⟨"tool_result", none, none, ⟨none, none, none⟩, some "t1"⟩])))]

/-- Witness for C2: start `t1`, then complete it; afterwards `t1` is
not active. -/
theorem claim_C2_witness :
    "t1" ∉ (prefState c2acts initSys 2).agent.activeToolIds := by
  apply claim_C2_no_completed_id_active c2acts initSys
  · intro j hj i hi x hx
    have hi0 : i = 0 := by
      have hj2 : j < 2 := by simpa [c2acts] using hj
      omega
    subst hi0
    have hres : resultIds (nthLine c2acts 0).2 = [] := by decide
    rw [hres] at hx
    exact absurd hx (List.not_mem_nil x)
  · decide
  · exact ⟨1, by omega, by decide⟩

/-! ## Claim C3: tool-done after tool-start, delayed by the constant -/

/-- Whether a timed event is the tool-start event for id `x`. -/
def isStartFor (x : String) (te : Nat × Event) : Bool :=
  match te.2 with
  | Event.agentToolStart i _ => i == x
  | _ => false

/-- One user record completing `t9` although `t9` was never started. -/
def c3cexActs : List (Nat × TLine) :=
  [(0, TLine.parsed (Record.user (UserContent.arr
      [⟨"tool_result", none, none, ⟨none, none, none⟩, some "t9"⟩])))]

/-- Counterexample to claim C3 as stated: an unmatched tool-result
emits a tool-done event for an id whose tool-start event never appears
in the run — the source schedules the done emission unconditionally for
every tool-result block. -/
theorem claim_C3_counterexample :
    ((300, Event.agentToolDone "t9") ∈ (runRecords c3cexActs initSys).2) ∧
    ((runRecords c3cexActs initSys).2.all (fun te => ! isStartFor "t9" te) = true) := by
  decide

theorem addToolUses_events_shape (bs : List ContentBlock) (a : AgentState) :
    ∀ e ∈ (addToolUses a bs).2.1, ∃ i st, e = Event.agentToolStart i st := by
  induction bs generalizing a with
  | nil => simp [addToolUses]
  | cons b rest ih =>
      intro e he
      have he2 : e ∈ (addOneToolUse a b).2.1 ++
          (addToolUses (addOneToolUse a b).1 rest).2.1 := he
      rcases List.mem_append.mp he2 with he | he
      · revert he
        unfold addOneToolUse
        by_cases ht : b.type = "tool_use"
        · rw [if_pos ht]
          cases hid : truthyStr b.id with
          | none => intro he; simp at he
          | some i =>
              dsimp only
              intro he
              rw [List.mem_singleton] at he
              exact ⟨_, _, he⟩
        · rw [if_neg ht]
          intro he
          simp at he
      · exact ih _ e he

theorem addSubTools_events_shape (bs : List ContentBlock) (parent : String) (a : AgentState) :
    ∀ e ∈ (addSubTools parent a bs).2.1, ∃ p i st, e = Event.subagentToolStart p i st := by
  induction bs generalizing a with
  | nil => simp [addSubTools]
  | cons b rest ih =>
      intro e he
      have he2 : e ∈ (addOneSubTool parent a b).2.1 ++
          (addSubTools parent (addOneSubTool parent a b).1 rest).2.1 := he
      rcases List.mem_append.mp he2 with he | he
      · revert he
        unfold addOneSubTool
        by_cases ht : b.type = "tool_use"
        · rw [if_pos ht]
          cases hid : truthyStr b.id with
          | none => intro he; simp at he
          | some i =>
              dsimp only
              intro he
              rw [List.mem_singleton] at he
              exact ⟨_, _, _, he⟩
        · rw [if_neg ht]
          intro he
          simp at he
      · exact ih _ e he

theorem removeSubTools_events_shape (bs : List ContentBlock) (now : Nat) (parent : String)
    (a : AgentState) :
    ∀ te ∈ (removeSubTools now parent a bs).2, ∃ p i, te.2 = Event.subagentToolDone p i := by
  induction bs generalizing a with
  | nil => simp [removeSubTools]
  | cons b rest ih =>
      intro te hte
      have hte2 : te ∈ (removeOneSubTool now parent a b).2 ++
          (removeSubTools now parent (removeOneSubTool now parent a b).1 rest).2 := hte
      rcases List.mem_append.mp hte2 with hte | hte
      · revert hte
        unfold removeOneSubTool
        by_cases ht : b.type = "tool_result"
        · rw [if_pos ht]
          cases hid : truthyStr b.tool_use_id with
          | none => intro hte; simp at hte
          | some i =>
              dsimp only
              intro hte
              rw [List.mem_singleton] at hte
              exact ⟨_, _, by rw [hte]⟩
        · rw [if_neg ht]
          intro hte
          simp at hte
      · exact ih _ te hte

theorem done_mem_processOneToolResult (now : Nat) (a : AgentState) (b : ContentBlock)
    (τ : Nat) (x : String) :
    (τ, Event.agentToolDone x) ∈ (processOneToolResult now a b).2 ↔
      b.type = "tool_result" ∧ truthyStr b.tool_use_id = some x ∧
        τ = now + TOOL_DONE_DELAY_MS := by
  unfold processOneToolResult
  by_cases ht : b.type = "tool_result"
  · rw [if_pos ht]
    cases hid : truthyStr b.tool_use_id with
    | none => simp [ht]
    | some i =>
        dsimp only
        have hcore : ∀ evs : List (Nat × Event),
            (∀ te ∈ evs, ∀ y : String, te.2 ≠ Event.agentToolDone y) →
            ((τ, Event.agentToolDone x) ∈
                evs ++ [(now + TOOL_DONE_DELAY_MS, Event.agentToolDone i)] ↔
              x = i ∧ τ = now + TOOL_DONE_DELAY_MS) := by
          intro evs hevs
          rw [List.mem_append, List.mem_singleton]
          constructor
          · rintro (hm | hm)
            · exact absurd rfl (hevs _ hm x)
            · have h1 : τ = now + TOOL_DONE_DELAY_MS := congrArg Prod.fst hm
              have h2 : Event.agentToolDone x = Event.agentToolDone i := congrArg Prod.snd hm
              refine ⟨?_, h1⟩
              injection h2
          · rintro ⟨rfl, rfl⟩
            exact Or.inr rfl
        have hfinish : (x = i ∧ τ = now + TOOL_DONE_DELAY_MS) ↔
            (b.type = "tool_result" ∧ truthyStr b.tool_use_id = some x ∧
              τ = now + TOOL_DONE_DELAY_MS) := by
          constructor
          · rintro ⟨rfl, rfl⟩
            exact ⟨ht, by rw [hid], rfl⟩
          · rintro ⟨-, hsome, rfl⟩
            rw [hid] at hsome
            exact ⟨(Option.some_inj.mp hsome).symm, rfl⟩
        have hside : ∀ te ∈ [(now, Event.subagentClear i)], ∀ y : String,
            te.2 ≠ Event.agentToolDone y := by
          intro te hte y
          rw [List.mem_singleton] at hte
          subst hte
          simp
        split
        · rw [hcore [(now, Event.subagentClear i)] hside, hfinish, hid]
        · rw [hcore [] (by intro te hte y; simp at hte), hfinish, hid]
  · rw [if_neg ht]
    simp [ht]

theorem done_mem_processToolResults (bs : List ContentBlock) (now : Nat) (a : AgentState)
    (τ : Nat) (x : String) :
    (τ, Event.agentToolDone x) ∈ (processToolResults now a bs).2 ↔
      x ∈ blockResultIds bs ∧ τ = now + TOOL_DONE_DELAY_MS := by
  induction bs generalizing a with
  | nil => simp [processToolResults, blockResultIds]
  | cons b rest ih =>
      show (τ, Event.agentToolDone x) ∈ (processOneToolResult now a b).2 ++
        (processToolResults now (processOneToolResult now a b).1 rest).2 ↔ _
      rw [List.mem_append, ih, done_mem_processOneToolResult]
      unfold blockResultIds
      rw [List.filterMap_cons]
      by_cases ht : b.type = "tool_result"
      · rw [if_pos ht]
        cases hid : truthyStr b.tool_use_id with
        | none => simp [ht, blockResultIds]
        | some i =>
            simp only [ht, true_and, Option.some_inj, List.mem_cons]
            tauto
      · rw [if_neg ht]
        simp [ht, blockResultIds]

/-- Per-line characterization of tool-done emissions: they arise
exactly from the line's completed ids, stamped `now + 300`. -/
theorem done_mem_step (now : Nat) (l : TLine) (s : Sys) (τ : Nat) (x : String) :
    (τ, Event.agentToolDone x) ∈ (processTranscriptLine now l s).2 ↔
      x ∈ resultIds l ∧ τ = now + TOOL_DONE_DELAY_MS := by
  cases l with
  | malformed => simp [processTranscriptLine, resultIds]
  | parsed r =>
      cases r with
      | otherKind => simp [processTranscriptLine, processRecord, resultIds]
      | assistant content =>
          cases content with
          | none => simp [processTranscriptLine, processRecord, resultIds]
          | some blocks =>
              dsimp only [processTranscriptLine, processRecord]
              rw [show resultIds (TLine.parsed (Record.assistant (some blocks))) = [] from rfl]
              simp only [List.not_mem_nil, false_and, iff_false]
              by_cases huse : blocks.any (fun b => b.type == "tool_use") = true
              · rw [if_pos huse]
                dsimp only
                intro hmem
                rw [List.mem_map] at hmem
                obtain ⟨e, he, heq⟩ := hmem
                rcases List.mem_cons.mp he with rfl | he
                · simp at heq
                · obtain ⟨i, st, rfl⟩ := addToolUses_events_shape blocks _ e he
                  simp at heq
              · rw [if_neg huse]
                split
                · simp
                · simp
      | system subtype =>
          dsimp only [processTranscriptLine, processRecord]
          rw [show resultIds (TLine.parsed (Record.system subtype)) = [] from rfl]
          simp only [List.not_mem_nil, false_and, iff_false]
          split
          · dsimp only
            split
            · simp
            · simp
          · simp
      | progress pid data =>
          dsimp only [processTranscriptLine, processRecord]
          rw [show resultIds (TLine.parsed (Record.progress pid data)) = [] from rfl]
          simp only [List.not_mem_nil, false_and, iff_false]
          unfold processProgressRecord
          cases truthyStr pid with
          | none => simp
          | some parentToolId =>
              cases data with
              | none => simp
              | some d =>
                  dsimp only
                  split
                  · split
                    · simp
                    · simp
                  · split
                    · cases d.message with
                      | none => simp
                      | some msg =>
                          dsimp only
                          cases msg.message with
                          | none => simp
                          | some inner =>
                              dsimp only
                              cases inner.content with
                              | none => simp
                              | some content =>
                                  dsimp only
                                  split
                                  · intro hmem
                                    dsimp only at hmem
                                    rw [List.mem_map] at hmem
                                    obtain ⟨e, he, heq⟩ := hmem
                                    obtain ⟨p, i, st, rfl⟩ :=
                                      addSubTools_events_shape content parentToolId _ e he
                                    simp at heq
                                  · split
                                    · intro hmem
                                      dsimp only at hmem
                                      obtain ⟨p, i, hpi⟩ :=
                                        removeSubTools_events_shape content now parentToolId
                                          s.agent _ hmem
                                      simp at hpi
                                    · simp
                    · simp
      | user content =>
          cases content with
          | other => simp [processTranscriptLine, processRecord, resultIds]
          | str txt =>
              dsimp only [processTranscriptLine, processRecord]
              rw [show resultIds (TLine.parsed (Record.user (UserContent.str txt))) = [] from rfl]
              simp only [List.not_mem_nil, false_and, iff_false]
              split
              · simp [newTurnReset, clearAgentActivity]
              · simp
          | arr blocks =>
              dsimp only [processTranscriptLine, processRecord]
              rw [resultIds_user]
              by_cases hres : blocks.any (fun b => b.type == "tool_result") = true
              · rw [if_pos hres]
                dsimp only
                exact done_mem_processToolResults blocks now s.agent τ x
              · rw [if_neg hres]
                have hnil : blockResultIds blocks = [] := by
                  unfold blockResultIds
                  rw [List.filterMap_eq_nil]
                  intro b hb
                  have hres2 : blocks.any (fun b => b.type == "tool_result") = false := by
                    simpa using hres
                  rw [List.any_eq_false] at hres2
                  have := hres2 b hb
                  simp only [beq_iff_eq] at this
                  simp [this]
                rw [hnil]
                simp [newTurnReset, clearAgentActivity]

theorem start_mem_addToolUses (bs : List ContentBlock) (a : AgentState) (x : String)
    (hx : x ∈ blockUseIds bs) :
    ∃ st, Event.agentToolStart x st ∈ (addToolUses a bs).2.1 := by
  induction bs generalizing a with
  | nil => simp [blockUseIds] at hx
  | cons b rest ih =>
      unfold blockUseIds at hx
      rw [List.filterMap_cons] at hx
      have hsplit : (τ : Unit) → Event.agentToolStart x (formatToolStatus (b.name.getD "")
        b.input) ∈ (addOneToolUse a b).2.1 ∨ True := fun _ => Or.inr trivial
      by_cases ht : b.type = "tool_use"
      · rw [if_pos ht] at hx
        cases hid : truthyStr b.id with
        | none =>
            rw [hid] at hx
            obtain ⟨st, hst⟩ := ih (addOneToolUse a b).1 hx
            exact ⟨st, List.mem_append.mpr (Or.inr hst)⟩
        | some i =>
            rw [hid] at hx
            rcases List.mem_cons.mp hx with rfl | hx
            · refine ⟨formatToolStatus (b.name.getD "") b.input, List.mem_append.mpr (Or.inl ?_)⟩
              unfold addOneToolUse
              rw [if_pos ht, hid]
              exact List.mem_singleton.mpr rfl
            · obtain ⟨st, hst⟩ := ih (addOneToolUse a b).1 hx
              exact ⟨st, List.mem_append.mpr (Or.inr hst)⟩
      · rw [if_neg ht] at hx
        obtain ⟨st, hst⟩ := ih (addOneToolUse a b).1 hx
        exact ⟨st, List.mem_append.mpr (Or.inr hst)⟩

theorem blockUseIds_any (bs : List ContentBlock) (x : String) (hx : x ∈ blockUseIds bs) :
    bs.any (fun b => b.type == "tool_use") = true := by
  unfold blockUseIds at hx
  rw [List.mem_filterMap] at hx
  obtain ⟨b, hb, hfb⟩ := hx
  rw [List.any_eq_true]
  refine ⟨b, hb, ?_⟩
  by_cases ht : b.type = "tool_use"
  · simp [ht]
  · rw [if_neg ht] at hfb
    exact absurd hfb (by simp)

/-- Per-line start-event emission: every id a line starts gets a
tool-start event stamped with the processing time. -/
theorem start_mem_step (now : Nat) (l : TLine) (s : Sys) (x : String) (hx : x ∈ startIds l) :
    ∃ st, (now, Event.agentToolStart x st) ∈ (processTranscriptLine now l s).2 := by
  cases l with
  | malformed => simp [startIds] at hx
  | parsed r =>
      cases r with
      | otherKind => simp [startIds] at hx
      | system subtype => simp [startIds] at hx
      | progress pid data => simp [startIds] at hx
      | user content => simp [startIds] at hx
      | assistant content =>
          cases content with
          | none => simp [startIds] at hx
          | some blocks =>
              rw [startIds_assistant] at hx
              have huse := blockUseIds_any blocks x hx
              dsimp only [processTranscriptLine, processRecord]
              rw [if_pos huse]
              dsimp only
              obtain ⟨st, hst⟩ := start_mem_addToolUses blocks
                { (cancelWaitingTimer s).agent with isWaiting := false, hadToolsInTurn := true } x hx
              refine ⟨st, ?_⟩
              rw [List.mem_map]
              exact ⟨Event.agentToolStart x st, List.mem_cons.mpr (Or.inr hst), rfl⟩

/-- Membership in a run's trace is membership in some line's trace,
processed from the state before that line. -/
theorem mem_runRecords (acts : List (Nat × TLine)) (s : Sys) (te : Nat × Event) :
    te ∈ (runRecords acts s).2 ↔
      ∃ i, i < acts.length ∧
        te ∈ (processTranscriptLine (nthLine acts i).1 (nthLine acts i).2
          (prefState acts s i)).2 := by
  induction acts generalizing s with
  | nil => simp [runRecords]
  | cons a rest ih =>
      have hdef : te ∈ (runRecords (a :: rest) s).2 ↔
          te ∈ (processTranscriptLine a.1 a.2 s).2 ∨
            te ∈ (runRecords rest (processTranscriptLine a.1 a.2 s).1).2 :=
        List.mem_append
      rw [hdef, ih]
      constructor
      · rintro (h0 | ⟨i, hi, hmem⟩)
        · exact ⟨0, Nat.succ_pos _, by rwa [nthLine_cons_zero, prefState_zero]⟩
        · refine ⟨i + 1, by simpa using hi, ?_⟩
          rwa [nthLine_cons_succ, prefState_cons_succ]
      · rintro ⟨i, hi, hmem⟩
        cases i with
        | zero =>
            left
            rwa [nthLine_cons_zero, prefState_zero] at hmem
        | succ j =>
            right
            refine ⟨j, by simpa using hi, ?_⟩
            rwa [nthLine_cons_succ, prefState_cons_succ] at hmem

/-- Claim C3, amended: provided every tool-result in the sequence was
preceded by a matching tool-start record (well-formed transcripts) and
processing times are monotone, every tool-done event arises from a
completing record with emission time exactly that record's processing
time plus `TOOL_DONE_DELAY_MS`, and the matching tool-start event
occurs strictly earlier in the run's trace. -/
theorem claim_C3_amended (acts : List (Nat × TLine)) (s0 : Sys)
    (hmono : ∀ j, j < acts.length → ∀ i, i < j → (nthLine acts i).1 ≤ (nthLine acts j).1)
    (hmatch : ∀ i, i < acts.length → ∀ x ∈ resultIds (nthLine acts i).2,
      ∃ j, j < i ∧ x ∈ startIds (nthLine acts j).2) :
    ∀ τ x, (τ, Event.agentToolDone x) ∈ (runRecords acts s0).2 →
      (∃ i, i < acts.length ∧ x ∈ resultIds (nthLine acts i).2 ∧
        τ = (nthLine acts i).1 + TOOL_DONE_DELAY_MS) ∧
      (∃ τ2 st, (τ2, Event.agentToolStart x st) ∈ (runRecords acts s0).2 ∧ τ2 < τ) := by
  intro τ x hmem
  rw [mem_runRecords] at hmem
  obtain ⟨i, hi, hstep⟩ := hmem
  rw [done_mem_step] at hstep
  obtain ⟨hres, rfl⟩ := hstep
  refine ⟨⟨i, hi, hres, rfl⟩, ?_⟩
  obtain ⟨j, hj, hstart⟩ := hmatch i hi x hres
  obtain ⟨st, hst⟩ := start_mem_step (nthLine acts j).1 (nthLine acts j).2
    (prefState acts s0 j) x hstart
  refine ⟨(nthLine acts j).1, st, ?_, ?_⟩
  · rw [mem_runRecords]
    exact ⟨j, Nat.lt_trans hj hi, hst⟩
  · have hle := hmono i hi j hj
    have hpos : 0 < TOOL_DONE_DELAY_MS := by decide
    omega

/-- Witness for C3 amended on the two-record start/complete run. -/
theorem claim_C3_witness :
    ((5 + TOOL_DONE_DELAY_MS, Event.agentToolDone "t1") ∈ (runRecords c2acts initSys).2 →
      (∃ i, i < c2acts.length ∧ "t1" ∈ resultIds (nthLine c2acts i).2 ∧
        5 + TOOL_DONE_DELAY_MS = (nthLine c2acts i).1 + TOOL_DONE_DELAY_MS) ∧
      (∃ τ2 st, (τ2, Event.agentToolStart "t1" st) ∈ (runRecords c2acts initSys).2 ∧
        τ2 < 5 + TOOL_DONE_DELAY_MS)) ∧
    (5 + TOOL_DONE_DELAY_MS, Event.agentToolDone "t1") ∈ (runRecords c2acts initSys).2 := by
  constructor
  · intro hmem
    apply claim_C3_amended c2acts initSys
    · intro j hj i hi
      have hj2 : j < 2 := by simpa [c2acts] using hj
      have : i = 0 ∧ j = 1 := by omega
      obtain ⟨rfl, rfl⟩ := this
      decide
    · intro i hi x hx
      have hi2 : i < 2 := by simpa [c2acts] using hi
      interval_cases i
      · have h0 : resultIds (nthLine c2acts 0).2 = [] := by decide
        rw [h0] at hx
        exact absurd hx (List.not_mem_nil x)
      · refine ⟨0, by omega, ?_⟩
        have h1 : resultIds (nthLine c2acts 1).2 = ["t1"] := by decide
        rw [h1, List.mem_singleton] at hx
        subst hx
        decide
    · exact hmem
  · decide

/-! ## Claim C6: duplicate lines, association-list toolkit -/

/-- A JS `Map` representation never holds two entries with one key. -/
def NodupKeys {α : Type} (m : List (String × α)) : Prop :=
  (m.map Prod.fst).Nodup

theorem mset_cons_ne {α : Type} (p : String × α) (rest : List (String × α)) (k : String) (v : α)
    (hk : p.1 ≠ k) : mset (p :: rest) k v = p :: mset rest k v := by
  have hmg : mget (p :: rest) k = mget rest k := by simp [mget, hk]
  unfold mset
  rw [hmg]
  split
  · rw [List.map_cons]
    congr 1
    simp [hk]
  · rw [List.cons_append]

theorem mget_mset_self {α : Type} (m : List (String × α)) (k : String) (v : α) :
    mget (mset m k v) k = some v := by
  induction m with
  | nil => simp [mset, mget]
  | cons p rest ih =>
      by_cases hk : p.1 = k
      · have hcond : (mget (p :: rest) k).isSome := by simp [mget, hk]
        unfold mset
        rw [if_pos hcond, List.map_cons]
        simp [mget, hk]
      · rw [mset_cons_ne p rest k v hk, mget, if_neg hk]
        exact ih

theorem map_mset_fun_id {α : Type} (rest : List (String × α)) (k : String) (v : α)
    (h : ∀ q ∈ rest, q.1 ≠ k) :
    rest.map (fun q => if q.1 == k then (k, v) else q) = rest := by
  induction rest with
  | nil => rfl
  | cons q qr ih =>
      rw [List.map_cons]
      rw [if_neg (by simp [h q (List.mem_cons_self q qr)])]
      rw [ih (fun r hr => h r (List.mem_cons_of_mem q hr))]

theorem mget_none_iff {α : Type} (m : List (String × α)) (k : String) :
    mget m k = none ↔ ∀ p ∈ m, p.1 ≠ k := by
  induction m with
  | nil => simp [mget]
  | cons p rest ih =>
      rw [mget]
      by_cases hk : p.1 = k
      · simp [hk]
      · simp only [if_neg hk, ih, List.mem_cons]
        constructor
        · rintro h q (rfl | hq)
          · exact hk
          · exact h q hq
        · intro h q hq
          exact h q (Or.inr hq)

theorem mget_mset_other {α : Type} (m : List (String × α)) (k k2 : String) (v : α)
    (h : k2 ≠ k) : mget (mset m k v) k2 = mget m k2 := by
  induction m with
  | nil => simp [mset, mget, Ne.symm h]
  | cons p rest ih =>
      by_cases hk : p.1 = k
      · have hcond : (mget (p :: rest) k).isSome := by simp [mget, hk]
        unfold mset
        rw [if_pos hcond, List.map_cons]
        rw [show (if (p.1 == k) = true then (k, v) else p) = (k, v) from by simp [hk]]
        rw [show mget ((k, v) :: rest.map (fun q => if q.1 == k then (k, v) else q)) k2 =
          mget (rest.map (fun q => if q.1 == k then (k, v) else q)) k2 from by
            rw [mget, if_neg (Ne.symm h)]]
        rw [show mget (p :: rest) k2 = mget rest k2 from by
          rw [mget, if_neg (by rw [hk]; exact Ne.symm h)]]
        by_cases hcr : (mget rest k).isSome
        · have hms : mset rest k v = rest.map (fun q => if q.1 == k then (k, v) else q) := by
            unfold mset
            rw [if_pos hcr]
          rw [← hms]
          exact ih
        · have hnone : mget rest k = none := by
            cases hm : mget rest k
            · rfl
            · rw [hm] at hcr
              simp at hcr
          rw [mget_none_iff] at hnone
          rw [map_mset_fun_id rest k v hnone]
      · rw [mset_cons_ne p rest k v hk, mget, mget]
        split
        · rfl
        · exact ih

theorem mset_eq_self {α : Type} (m : List (String × α)) (k : String) (v : α)
    (hv : mget m k = some v) (hnd : NodupKeys m) : mset m k v = m := by
  induction m with
  | nil => simp [mget] at hv
  | cons p rest ih =>
      by_cases hk : p.1 = k
      · have hcond : (mget (p :: rest) k).isSome := by simp [mget, hk]
        unfold mset
        rw [if_pos hcond, List.map_cons]
        have hpv : p.2 = v := by
          rw [mget, if_pos hk] at hv
          exact Option.some_inj.mp hv
        have hrest : ∀ q ∈ rest, q.1 ≠ k := by
          intro q hq
          unfold NodupKeys at hnd
          rw [List.map_cons, List.nodup_cons] at hnd
          intro hqk
          exact hnd.1 (by rw [hk, ← hqk]; exact List.mem_map_of_mem Prod.fst hq)
        rw [map_mset_fun_id rest k v hrest]
        have hp : (if p.1 == k then (k, v) else p) = p := by
          rw [if_pos (by simpa using hk)]
          rw [← hk, ← hpv]
        rw [hp]
      · rw [mset_cons_ne p rest k v hk]
        congr 1
        apply ih
        · rwa [mget, if_neg hk] at hv
        · unfold NodupKeys at hnd ⊢
          rw [List.map_cons, List.nodup_cons] at hnd
          exact hnd.2

theorem NodupKeys_mset {α : Type} (m : List (String × α)) (k : String) (v : α)
    (h : NodupKeys m) : NodupKeys (mset m k v) := by
  unfold mset
  split
  · next hcond =>
      unfold NodupKeys at h ⊢
      have hmap : (m.map (fun p => if p.1 == k then (k, v) else p)).map Prod.fst =
          m.map Prod.fst := by
        rw [List.map_map]
        apply List.map_congr_left
        intro p hp
        by_cases hk : p.1 = k
        · simp [hk]
        · simp [hk]
      rwa [hmap]
  · next hcond =>
      unfold NodupKeys at h ⊢
      rw [List.map_append, List.nodup_append]
      refine ⟨h, by simp, ?_⟩
      intro a ha
      simp only [List.map_cons, List.map_nil, List.mem_singleton]
      intro haeq
      rw [haeq] at ha
      have hnone : mget m k = none := by
        cases hm : mget m k
        · rfl
        · rw [hm] at hcond
          simp at hcond
      rw [mget_none_iff] at hnone
      obtain ⟨p, hp, hpk⟩ := List.mem_map.mp ha
      exact hnone p hp hpk

theorem mget_mdel_self {α : Type} (m : List (String × α)) (k : String) :
    mget (mdel m k) k = none := by
  rw [mget_none_iff]
  intro p hp
  unfold mdel at hp
  rw [List.mem_filter] at hp
  simpa using hp.2

theorem mget_mdel_other {α : Type} (m : List (String × α)) (k k2 : String) (h : k2 ≠ k) :
    mget (mdel m k) k2 = mget m k2 := by
  induction m with
  | nil => rfl
  | cons p rest ih =>
      unfold mdel
      rw [List.filter_cons]
      by_cases hk : p.1 = k
      · rw [if_neg (by simp [hk])]
        rw [show mget (p :: rest) k2 = mget rest k2 from by
          rw [mget, if_neg (by rw [hk]; exact Ne.symm h)]]
        exact ih
      · rw [if_pos (by simp [hk])]
        rw [mget, mget]
        split
        · rfl
        · exact ih

theorem mdel_eq_self {α : Type} (m : List (String × α)) (k : String) (h : mget m k = none) :
    mdel m k = m := by
  rw [mget_none_iff] at h
  unfold mdel
  rw [List.filter_eq_self]
  intro p hp
  simpa using h p hp

theorem NodupKeys_mdel {α : Type} (m : List (String × α)) (k : String) (h : NodupKeys m) :
    NodupKeys (mdel m k) := by
  unfold NodupKeys at h ⊢
  unfold mdel
  exact List.Nodup.sublist ((List.filter_sublist m).map Prod.fst) h

theorem sadd_eq_self (s : List String) (x : String) (h : x ∈ s) : sadd s x = s := by
  unfold sadd
  rw [if_pos (by simpa using h)]

theorem sdel_eq_self (s : List String) (x : String) (h : x ∉ s) : sdel s x = s := by
  unfold sdel
  rw [List.filter_eq_self]
  intro y hy
  simp only [decide_eq_true_eq]
  intro heq
  exact h (heq ▸ hy)

theorem Nodup_sadd (s : List String) (x : String) (h : s.Nodup) : (sadd s x).Nodup := by
  unfold sadd
  split
  · exact h
  · next hc =>
      rw [List.nodup_append]
      refine ⟨h, by simp, ?_⟩
      intro a ha
      simp only [List.mem_singleton]
      intro heq
      rw [heq] at ha
      exact hc (by simpa using ha)

theorem Nodup_sdel (s : List String) (x : String) (h : s.Nodup) : (sdel s x).Nodup :=
  List.Nodup.sublist (List.filter_sublist s) h

theorem mget_mem {α : Type} (m : List (String × α)) (k : String) (v : α)
    (h : mget m k = some v) : (k, v) ∈ m := by
  induction m with
  | nil => simp [mget] at h
  | cons p rest ih =>
      rw [mget] at h
      by_cases hk : p.1 = k
      · rw [if_pos hk] at h
        have hv : p.2 = v := Option.some_inj.mp h
        exact List.mem_cons.mpr (Or.inl (by rw [← hk, ← hv]))
      · rw [if_neg hk] at h
        exact List.mem_cons.mpr (Or.inr (ih h))

theorem mem_mset {α : Type} {m : List (String × α)} {k : String} {v : α} {q : String × α}
    (h : q ∈ mset m k v) : q = (k, v) ∨ q ∈ m := by
  unfold mset at h
  split at h
  · obtain ⟨p, hp, hfq⟩ := List.mem_map.mp h
    by_cases hk : p.1 = k
    · left
      rw [← hfq]
      simp [hk]
    · right
      rw [← hfq, if_neg (by simpa using hk)]
      exact hp
  · rcases List.mem_append.mp h with h | h
    · right
      exact h
    · left
      exact List.mem_singleton.mp h

theorem mget_mdel_none {α : Type} (m : List (String × α)) (k k2 : String)
    (h : mget m k2 = none) : mget (mdel m k) k2 = none := by
  by_cases hk : k2 = k
  · rw [hk]
    exact mget_mdel_self m k
  · rw [mget_mdel_other m k k2 hk]
    exact h

/-- Well-formedness of an agent state as produced by JS `Map`/`Set`
objects: no duplicate ids or keys, at any nesting depth. -/
def AgentWF (a : AgentState) : Prop :=
  a.activeToolIds.Nodup ∧
  NodupKeys a.activeToolStatuses ∧
  NodupKeys a.activeToolNames ∧
  NodupKeys a.activeSubagentToolIds ∧
  (∀ p ∈ a.activeSubagentToolIds, p.2.Nodup) ∧
  NodupKeys a.activeSubagentToolNames ∧
  (∀ p ∈ a.activeSubagentToolNames, NodupKeys p.2)

/-- Well-formedness of a record: the tool-use blocks inside one record
carry pairwise distinct invocation ids (a single API response never
lists the same invocation twice). -/
def RecordWF (l : TLine) : Prop :=
  match l with
  | TLine.parsed (Record.assistant (some blocks)) => (blockUseIds blocks).Nodup
  | TLine.parsed (Record.progress _ (some d)) =>
      match d.message with
      | some msg =>
          match msg.message with
          | some inner =>
              match inner.content with
              | some content => (blockUseIds content).Nodup
              | none => True
          | none => True
      | none => True
  | _ => True

/-- The duplicate line of the C6 counterexample: a tool-result for
`t1`. -/
def c6line : TLine :=
  TLine.parsed (Record.user (UserContent.arr
    [⟨"tool_result", none, none, ⟨none, none, none⟩, some "t1"⟩]))

/-- Counterexample to claim C6 as stated: processing the same record a
second time is not event-free — the duplicate tool-result re-emits a
delayed tool-done event (the emission is unconditional, with no
membership check). -/
theorem claim_C6_counterexample :
    (processTranscriptLine 1 c6line (processTranscriptLine 0 c6line initSys).1).2 ≠ [] := by
  decide

theorem agent_iw_ht_update_self (a : AgentState) (h1 : a.isWaiting = false)
    (h2 : a.hadToolsInTurn = true) :
    ({ a with isWaiting := false, hadToolsInTurn := true } : AgentState) = a := by
  cases a
  simp_all

theorem agent_ht_update_self (a : AgentState) (h : a.hadToolsInTurn = false) :
    ({ a with hadToolsInTurn := false } : AgentState) = a := by
  cases a
  simp_all

/-! ### Second-pass no-op for the assistant tool-start loop -/

theorem addOneToolUse_fields (a : AgentState) (b : ContentBlock) :
    (addOneToolUse a b).1.isWaiting = a.isWaiting ∧
    (addOneToolUse a b).1.permissionSent = a.permissionSent ∧
    (addOneToolUse a b).1.hadToolsInTurn = a.hadToolsInTurn ∧
    (addOneToolUse a b).1.activeSubagentToolIds = a.activeSubagentToolIds ∧
    (addOneToolUse a b).1.activeSubagentToolNames = a.activeSubagentToolNames := by
  unfold addOneToolUse
  by_cases ht : b.type = "tool_use"
  · rw [if_pos ht]
    cases truthyStr b.id <;> exact ⟨rfl, rfl, rfl, rfl, rfl⟩
  · rw [if_neg ht]
    exact ⟨rfl, rfl, rfl, rfl, rfl⟩

theorem addToolUses_fields (bs : List ContentBlock) (a : AgentState) :
    (addToolUses a bs).1.isWaiting = a.isWaiting ∧
    (addToolUses a bs).1.permissionSent = a.permissionSent ∧
    (addToolUses a bs).1.hadToolsInTurn = a.hadToolsInTurn ∧
    (addToolUses a bs).1.activeSubagentToolIds = a.activeSubagentToolIds ∧
    (addToolUses a bs).1.activeSubagentToolNames = a.activeSubagentToolNames := by
  induction bs generalizing a with
  | nil => exact ⟨rfl, rfl, rfl, rfl, rfl⟩
  | cons b rest ih =>
      have h1 := addOneToolUse_fields a b
      have h2 := ih (addOneToolUse a b).1
      exact ⟨h2.1.trans h1.1, (h2.2.1).trans h1.2.1, (h2.2.2.1).trans h1.2.2.1,
        (h2.2.2.2.1).trans h1.2.2.2.1, (h2.2.2.2.2).trans h1.2.2.2.2⟩

theorem addOneToolUse_maps (a : AgentState) (b : ContentBlock) :
    (NodupKeys a.activeToolStatuses → NodupKeys (addOneToolUse a b).1.activeToolStatuses) ∧
    (NodupKeys a.activeToolNames → NodupKeys (addOneToolUse a b).1.activeToolNames) := by
  unfold addOneToolUse
  by_cases ht : b.type = "tool_use"
  · rw [if_pos ht]
    cases truthyStr b.id with
    | none => exact ⟨id, id⟩
    | some i =>
        exact ⟨fun h => NodupKeys_mset _ _ _ h, fun h => NodupKeys_mset _ _ _ h⟩
  · rw [if_neg ht]
    exact ⟨id, id⟩

theorem addToolUses_NodupKeys (bs : List ContentBlock) (a : AgentState)
    (h1 : NodupKeys a.activeToolStatuses) (h2 : NodupKeys a.activeToolNames) :
    NodupKeys (addToolUses a bs).1.activeToolStatuses ∧
    NodupKeys (addToolUses a bs).1.activeToolNames := by
  induction bs generalizing a h1 h2 with
  | nil => exact ⟨h1, h2⟩
  | cons b rest ih =>
      exact ih (addOneToolUse a b).1 ((addOneToolUse_maps a b).1 h1)
        ((addOneToolUse_maps a b).2 h2)

theorem addToolUses_untouched (bs : List ContentBlock) (a : AgentState) (i : String)
    (hni : i ∉ blockUseIds bs) :
    mget (addToolUses a bs).1.activeToolNames i = mget a.activeToolNames i ∧
    mget (addToolUses a bs).1.activeToolStatuses i = mget a.activeToolStatuses i := by
  induction bs generalizing a with
  | nil => exact ⟨rfl, rfl⟩
  | cons b rest ih =>
      unfold blockUseIds at hni
      rw [List.filterMap_cons] at hni
      have hstep : mget (addOneToolUse a b).1.activeToolNames i = mget a.activeToolNames i ∧
          mget (addOneToolUse a b).1.activeToolStatuses i = mget a.activeToolStatuses i := by
        unfold addOneToolUse
        by_cases ht : b.type = "tool_use"
        · rw [if_pos ht]
          cases hid : truthyStr b.id with
          | none => exact ⟨rfl, rfl⟩
          | some j =>
              rw [if_pos ht, hid] at hni
              have hij : i ≠ j := by
                intro heq
                exact hni (List.mem_cons.mpr (Or.inl heq))
              exact ⟨mget_mset_other _ j i _ hij, mget_mset_other _ j i _ hij⟩
        · rw [if_neg ht]
          exact ⟨rfl, rfl⟩
      have htail : i ∉ blockUseIds rest := by
        intro hmem
        apply hni
        unfold blockUseIds at hmem
        by_cases ht : b.type = "tool_use"
        · rw [if_pos ht]
          cases hid : truthyStr b.id with
          | none => exact hmem
          | some j => exact List.mem_cons.mpr (Or.inr hmem)
        · rw [if_neg ht]
          exact hmem
      obtain ⟨ihn, ihs⟩ := ih (addOneToolUse a b).1 htail
      exact ⟨ihn.trans hstep.1, ihs.trans hstep.2⟩

theorem addToolUses_char (bs : List ContentBlock) (a : AgentState)
    (hnd : (blockUseIds bs).Nodup) :
    ∀ b ∈ bs, b.type = "tool_use" → ∀ i, truthyStr b.id = some i →
      i ∈ (addToolUses a bs).1.activeToolIds ∧
      mget (addToolUses a bs).1.activeToolNames i = some (b.name.getD "") ∧
      mget (addToolUses a bs).1.activeToolStatuses i =
        some (formatToolStatus (b.name.getD "") b.input) := by
  induction bs generalizing a with
  | nil =>
      intro b hb
      exact absurd hb (List.not_mem_nil b)
  | cons b0 rest ih =>
      intro b hb ht i hid
      rcases List.mem_cons.mp hb with heq | hb
      · subst heq
        have hcons : blockUseIds (b :: rest) = i :: blockUseIds rest := by
          unfold blockUseIds
          rw [List.filterMap_cons, if_pos ht, hid]
        rw [hcons] at hnd
        have hni : i ∉ blockUseIds rest := (List.nodup_cons.mp hnd).1
        have hstep : i ∈ (addOneToolUse a b).1.activeToolIds ∧
            mget (addOneToolUse a b).1.activeToolNames i = some (b.name.getD "") ∧
            mget (addOneToolUse a b).1.activeToolStatuses i =
              some (formatToolStatus (b.name.getD "") b.input) := by
          unfold addOneToolUse
          rw [if_pos ht, hid]
          dsimp only
          exact ⟨mem_sadd.mpr (Or.inr rfl), mget_mset_self _ _ _, mget_mset_self _ _ _⟩
        obtain ⟨hun, hus⟩ := addToolUses_untouched rest (addOneToolUse a b).1 i hni
        refine ⟨?_, ?_, ?_⟩
        · show i ∈ (addToolUses (addOneToolUse a b).1 rest).1.activeToolIds
          rw [addToolUses_activeToolIds]
          exact Or.inl hstep.1
        · show mget (addToolUses (addOneToolUse a b).1 rest).1.activeToolNames i = _
          rw [hun]
          exact hstep.2.1
        · show mget (addToolUses (addOneToolUse a b).1 rest).1.activeToolStatuses i = _
          rw [hus]
          exact hstep.2.2
      · have htail : (blockUseIds rest).Nodup := by
          unfold blockUseIds at hnd ⊢
          rw [List.filterMap_cons] at hnd
          cases hfb : (if b0.type = "tool_use" then truthyStr b0.id else none) with
          | none => rwa [hfb] at hnd
          | some j =>
              rw [hfb] at hnd
              exact (List.nodup_cons.mp hnd).2
        exact ih (addOneToolUse a b0).1 htail b hb ht i hid

theorem addOneToolUse_noop (A : AgentState) (b : ContentBlock)
    (h : b.type = "tool_use" → ∀ i, truthyStr b.id = some i →
      i ∈ A.activeToolIds ∧ mget A.activeToolNames i = some (b.name.getD "") ∧
      mget A.activeToolStatuses i = some (formatToolStatus (b.name.getD "") b.input))
    (hnk1 : NodupKeys A.activeToolStatuses) (hnk2 : NodupKeys A.activeToolNames) :
    (addOneToolUse A b).1 = A := by
  unfold addOneToolUse
  by_cases ht : b.type = "tool_use"
  · rw [if_pos ht]
    cases hid : truthyStr b.id with
    | none => rfl
    | some i =>
        obtain ⟨h1, h2, h3⟩ := h ht i hid
        dsimp only
        rw [sadd_eq_self _ _ h1, mset_eq_self _ _ _ h3 hnk1, mset_eq_self _ _ _ h2 hnk2]
  · rw [if_neg ht]

theorem addToolUses_noop (bs : List ContentBlock) (A : AgentState)
    (h : ∀ b ∈ bs, b.type = "tool_use" → ∀ i, truthyStr b.id = some i →
      i ∈ A.activeToolIds ∧ mget A.activeToolNames i = some (b.name.getD "") ∧
      mget A.activeToolStatuses i = some (formatToolStatus (b.name.getD "") b.input))
    (hnk1 : NodupKeys A.activeToolStatuses) (hnk2 : NodupKeys A.activeToolNames) :
    (addToolUses A bs).1 = A := by
  induction bs with
  | nil => rfl
  | cons b rest ih =>
      show (addToolUses (addOneToolUse A b).1 rest).1 = A
      rw [addOneToolUse_noop A b (h b (List.mem_cons_self b rest)) hnk1 hnk2]
      exact ih (fun b2 hb2 => h b2 (List.mem_cons_of_mem b hb2))

/-! ### Second-pass no-op for the user tool-result loop -/

theorem processOneToolResult_fields (now : Nat) (a : AgentState) (b : ContentBlock) :
    (processOneToolResult now a b).1.isWaiting = a.isWaiting ∧
    (processOneToolResult now a b).1.permissionSent = a.permissionSent ∧
    (processOneToolResult now a b).1.hadToolsInTurn = a.hadToolsInTurn := by
  unfold processOneToolResult
  by_cases ht : b.type = "tool_result"
  · rw [if_pos ht]
    cases truthyStr b.tool_use_id with
    | none => exact ⟨rfl, rfl, rfl⟩
    | some i =>
        dsimp only
        split <;> exact ⟨rfl, rfl, rfl⟩
  · rw [if_neg ht]
    exact ⟨rfl, rfl, rfl⟩

theorem processToolResults_fields (bs : List ContentBlock) (now : Nat) (a : AgentState) :
    (processToolResults now a bs).1.isWaiting = a.isWaiting ∧
    (processToolResults now a bs).1.permissionSent = a.permissionSent ∧
    (processToolResults now a bs).1.hadToolsInTurn = a.hadToolsInTurn := by
  induction bs generalizing a with
  | nil => exact ⟨rfl, rfl, rfl⟩
  | cons b rest ih =>
      have h1 := processOneToolResult_fields now a b
      have h2 := ih (processOneToolResult now a b).1
      exact ⟨h2.1.trans h1.1, h2.2.1.trans h1.2.1, h2.2.2.trans h1.2.2⟩

theorem processOneToolResult_del (now : Nat) (a : AgentState) (b : ContentBlock) (i : String)
    (hb : b.type = "tool_result") (hid : truthyStr b.tool_use_id = some i) :
    mget (processOneToolResult now a b).1.activeToolNames i = none ∧
    mget (processOneToolResult now a b).1.activeToolStatuses i = none := by
  unfold processOneToolResult
  rw [if_pos hb, hid]
  dsimp only
  split <;> exact ⟨mget_mdel_self _ _, mget_mdel_self _ _⟩

theorem processOneToolResult_none_pres (now : Nat) (a : AgentState) (b : ContentBlock)
    (i : String) (h1 : mget a.activeToolNames i = none)
    (h2 : mget a.activeToolStatuses i = none) :
    mget (processOneToolResult now a b).1.activeToolNames i = none ∧
    mget (processOneToolResult now a b).1.activeToolStatuses i = none := by
  unfold processOneToolResult
  by_cases ht : b.type = "tool_result"
  · rw [if_pos ht]
    cases truthyStr b.tool_use_id with
    | none => exact ⟨h1, h2⟩
    | some j =>
        dsimp only
        split <;> exact ⟨mget_mdel_none _ _ _ h1, mget_mdel_none _ _ _ h2⟩
  · rw [if_neg ht]
    exact ⟨h1, h2⟩

theorem processToolResults_none_pres (bs : List ContentBlock) (now : Nat) (a : AgentState)
    (i : String) (h1 : mget a.activeToolNames i = none)
    (h2 : mget a.activeToolStatuses i = none) :
    mget (processToolResults now a bs).1.activeToolNames i = none ∧
    mget (processToolResults now a bs).1.activeToolStatuses i = none := by
  induction bs generalizing a with
  | nil => exact ⟨h1, h2⟩
  | cons b rest ih =>
      obtain ⟨hs1, hs2⟩ := processOneToolResult_none_pres now a b i h1 h2
      exact ih (processOneToolResult now a b).1 hs1 hs2

theorem processToolResults_clears (bs : List ContentBlock) (now : Nat) (a : AgentState)
    (i : String) (hi : i ∈ blockResultIds bs) :
    mget (processToolResults now a bs).1.activeToolNames i = none ∧
    mget (processToolResults now a bs).1.activeToolStatuses i = none := by
  induction bs generalizing a with
  | nil => simp [blockResultIds] at hi
  | cons b rest ih =>
      unfold blockResultIds at hi
      rw [List.filterMap_cons] at hi
      by_cases ht : b.type = "tool_result"
      · rw [if_pos ht] at hi
        cases hid : truthyStr b.tool_use_id with
        | none =>
            rw [hid] at hi
            exact ih (processOneToolResult now a b).1 hi
        | some j =>
            rw [hid] at hi
            rcases List.mem_cons.mp hi with heq | hi
            · subst heq
              obtain ⟨hd1, hd2⟩ := processOneToolResult_del now a b i ht hid
              exact processToolResults_none_pres rest now (processOneToolResult now a b).1
                i hd1 hd2
            · exact ih (processOneToolResult now a b).1 hi
      · rw [if_neg ht] at hi
        exact ih (processOneToolResult now a b).1 hi

theorem processOneToolResult_noop (now2 : Nat) (A : AgentState) (b : ContentBlock)
    (h : b.type = "tool_result" → ∀ i, truthyStr b.tool_use_id = some i →
      i ∉ A.activeToolIds ∧ mget A.activeToolStatuses i = none ∧
      mget A.activeToolNames i = none) :
    (processOneToolResult now2 A b).1 = A := by
  unfold processOneToolResult
  by_cases ht : b.type = "tool_result"
  · rw [if_pos ht]
    cases hid : truthyStr b.tool_use_id with
    | none => rfl
    | some i =>
        obtain ⟨h1, h2, h3⟩ := h ht i hid
        dsimp only
        rw [if_neg (by rw [h3]; simp)]
        dsimp only
        rw [sdel_eq_self _ _ h1, mdel_eq_self _ _ h2, mdel_eq_self _ _ h3]
  · rw [if_neg ht]

theorem processToolResults_noop (bs : List ContentBlock) (now2 : Nat) (A : AgentState)
    (h : ∀ i ∈ blockResultIds bs, i ∉ A.activeToolIds ∧
      mget A.activeToolStatuses i = none ∧ mget A.activeToolNames i = none) :
    (processToolResults now2 A bs).1 = A := by
  induction bs with
  | nil => rfl
  | cons b rest ih =>
      show (processToolResults now2 (processOneToolResult now2 A b).1 rest).1 = A
      have hstep : (processOneToolResult now2 A b).1 = A := by
        apply processOneToolResult_noop
        intro ht i hid
        apply h
        unfold blockResultIds
        rw [List.mem_filterMap]
        exact ⟨b, List.mem_cons_self b rest, by rw [if_pos ht, hid]⟩
      rw [hstep]
      apply ih
      intro i hi
      apply h
      unfold blockResultIds at hi ⊢
      rw [List.mem_filterMap] at hi ⊢
      obtain ⟨b2, hb2, hfb2⟩ := hi
      exact ⟨b2, List.mem_cons_of_mem b hb2, hfb2⟩

/-! ### Second-pass no-op for the nested sub-tool start loop -/

theorem addOneSubTool_fields (parent : String) (a : AgentState) (b : ContentBlock) :
    (addOneSubTool parent a b).1.activeToolIds = a.activeToolIds ∧
    (addOneSubTool parent a b).1.activeToolStatuses = a.activeToolStatuses ∧
    (addOneSubTool parent a b).1.activeToolNames = a.activeToolNames ∧
    (addOneSubTool parent a b).1.isWaiting = a.isWaiting ∧
    (addOneSubTool parent a b).1.permissionSent = a.permissionSent ∧
    (addOneSubTool parent a b).1.hadToolsInTurn = a.hadToolsInTurn := by
  unfold addOneSubTool
  by_cases ht : b.type = "tool_use"
  · rw [if_pos ht]
    cases truthyStr b.id <;> exact ⟨rfl, rfl, rfl, rfl, rfl, rfl⟩
  · rw [if_neg ht]
    exact ⟨rfl, rfl, rfl, rfl, rfl, rfl⟩

theorem addSubTools_fields (bs : List ContentBlock) (parent : String) (a : AgentState) :
    (addSubTools parent a bs).1.activeToolIds = a.activeToolIds ∧
    (addSubTools parent a bs).1.activeToolStatuses = a.activeToolStatuses ∧
    (addSubTools parent a bs).1.activeToolNames = a.activeToolNames ∧
    (addSubTools parent a bs).1.isWaiting = a.isWaiting ∧
    (addSubTools parent a bs).1.permissionSent = a.permissionSent ∧
    (addSubTools parent a bs).1.hadToolsInTurn = a.hadToolsInTurn := by
  induction bs generalizing a with
  | nil => exact ⟨rfl, rfl, rfl, rfl, rfl, rfl⟩
  | cons b rest ih =>
      have h1 := addOneSubTool_fields parent a b
      have h2 := ih (addOneSubTool parent a b).1
      exact ⟨h2.1.trans h1.1, h2.2.1.trans h1.2.1, h2.2.2.1.trans h1.2.2.1,
        h2.2.2.2.1.trans h1.2.2.2.1, h2.2.2.2.2.1.trans h1.2.2.2.2.1,
        h2.2.2.2.2.2.trans h1.2.2.2.2.2⟩

theorem addSubTools_pres (bs : List ContentBlock) (parent : String) (a : AgentState)
    (i : String) (nm : String) (hni : i ∉ blockUseIds bs)
    (h1 : ∃ S, mget a.activeSubagentToolIds parent = some S ∧ i ∈ S)
    (h2 : ∃ N, mget a.activeSubagentToolNames parent = some N ∧ mget N i = some nm) :
    (∃ S, mget (addSubTools parent a bs).1.activeSubagentToolIds parent = some S ∧ i ∈ S) ∧
    (∃ N, mget (addSubTools parent a bs).1.activeSubagentToolNames parent = some N ∧
      mget N i = some nm) := by
  induction bs generalizing a with
  | nil => exact ⟨h1, h2⟩
  | cons b rest ih =>
      unfold blockUseIds at hni
      rw [List.filterMap_cons] at hni
      have hstep :
          (∃ S, mget (addOneSubTool parent a b).1.activeSubagentToolIds parent =
            some S ∧ i ∈ S) ∧
          (∃ N, mget (addOneSubTool parent a b).1.activeSubagentToolNames parent =
            some N ∧ mget N i = some nm) := by
        unfold addOneSubTool
        by_cases ht : b.type = "tool_use"
        · rw [if_pos ht]
          cases hid : truthyStr b.id with
          | none => exact ⟨h1, h2⟩
          | some j =>
              rw [if_pos ht, hid] at hni
              have hij : i ≠ j := fun heq => hni (List.mem_cons.mpr (Or.inl heq))
              obtain ⟨S, hS, hiS⟩ := h1
              obtain ⟨N, hN, hNi⟩ := h2
              dsimp only
              constructor
              · refine ⟨sadd ((mget a.activeSubagentToolIds parent).getD []) j,
                  mget_mset_self _ _ _, ?_⟩
                rw [hS]
                exact mem_sadd.mpr (Or.inl hiS)
              · refine ⟨mset ((mget a.activeSubagentToolNames parent).getD []) j
                  (b.name.getD ""), mget_mset_self _ _ _, ?_⟩
                rw [hN]
                rw [mget_mset_other _ j i _ hij]
                exact hNi
        · rw [if_neg ht]
          exact ⟨h1, h2⟩
      have htail : i ∉ blockUseIds rest := by
        intro hmem
        apply hni
        by_cases ht : b.type = "tool_use"
        · rw [if_pos ht]
          cases hid : truthyStr b.id with
          | none => exact hmem
          | some j => exact List.mem_cons.mpr (Or.inr hmem)
        · rw [if_neg ht]
          exact hmem
      exact ih (addOneSubTool parent a b).1 htail hstep.1 hstep.2

theorem addSubTools_char (bs : List ContentBlock) (parent : String) (a : AgentState)
    (hnd : (blockUseIds bs).Nodup) :
    ∀ b ∈ bs, b.type = "tool_use" → ∀ i, truthyStr b.id = some i →
      (∃ S, mget (addSubTools parent a bs).1.activeSubagentToolIds parent = some S ∧ i ∈ S) ∧
      (∃ N, mget (addSubTools parent a bs).1.activeSubagentToolNames parent = some N ∧
        mget N i = some (b.name.getD "")) := by
  induction bs generalizing a with
  | nil =>
      intro b hb
      exact absurd hb (List.not_mem_nil b)
  | cons b0 rest ih =>
      intro b hb ht i hid
      rcases List.mem_cons.mp hb with heq | hb
      · subst heq
        have hcons : blockUseIds (b :: rest) = i :: blockUseIds rest := by
          unfold blockUseIds
          rw [List.filterMap_cons, if_pos ht, hid]
        rw [hcons] at hnd
        have hni : i ∉ blockUseIds rest := (List.nodup_cons.mp hnd).1
        have hstep :
            (∃ S, mget (addOneSubTool parent a b).1.activeSubagentToolIds parent =
              some S ∧ i ∈ S) ∧
            (∃ N, mget (addOneSubTool parent a b).1.activeSubagentToolNames parent =
              some N ∧ mget N i = some (b.name.getD "")) := by
          unfold addOneSubTool
          rw [if_pos ht, hid]
          dsimp only
          exact ⟨⟨_, mget_mset_self _ _ _, mem_sadd.mpr (Or.inr rfl)⟩,
            ⟨_, mget_mset_self _ _ _, mget_mset_self _ _ _⟩⟩
        exact addSubTools_pres rest parent (addOneSubTool parent a b).1 i _ hni
          hstep.1 hstep.2
      · have htail : (blockUseIds rest).Nodup := by
          unfold blockUseIds at hnd ⊢
          rw [List.filterMap_cons] at hnd
          cases hfb : (if b0.type = "tool_use" then truthyStr b0.id else none) with
          | none => rwa [hfb] at hnd
          | some j =>
              rw [hfb] at hnd
              exact (List.nodup_cons.mp hnd).2
        exact ih (addOneSubTool parent a b0).1 htail b hb ht i hid

theorem NodupKeys_nil {α : Type} : NodupKeys ([] : List (String × α)) := by
  simp [NodupKeys]

theorem addOneSubTool_WF (parent : String) (a : AgentState) (b : ContentBlock)
    (h1 : NodupKeys a.activeSubagentToolIds) (h2 : NodupKeys a.activeSubagentToolNames)
    (h3 : ∀ p ∈ a.activeSubagentToolNames, NodupKeys p.2) :
    NodupKeys (addOneSubTool parent a b).1.activeSubagentToolIds ∧
    NodupKeys (addOneSubTool parent a b).1.activeSubagentToolNames ∧
    (∀ p ∈ (addOneSubTool parent a b).1.activeSubagentToolNames, NodupKeys p.2) := by
  unfold addOneSubTool
  by_cases ht : b.type = "tool_use"
  · rw [if_pos ht]
    cases hid : truthyStr b.id with
    | none => exact ⟨h1, h2, h3⟩
    | some i =>
        dsimp only
        refine ⟨NodupKeys_mset _ _ _ h1, NodupKeys_mset _ _ _ h2, ?_⟩
        intro p hp
        rcases mem_mset hp with heq | hp2
        · subst heq
          apply NodupKeys_mset
          cases hN : mget a.activeSubagentToolNames parent with
          | none => exact NodupKeys_nil
          | some N => exact h3 (parent, N) (mget_mem _ _ _ hN)
        · exact h3 p hp2
  · rw [if_neg ht]
    exact ⟨h1, h2, h3⟩

theorem addSubTools_WF (bs : List ContentBlock) (parent : String) (a : AgentState)
    (h1 : NodupKeys a.activeSubagentToolIds) (h2 : NodupKeys a.activeSubagentToolNames)
    (h3 : ∀ p ∈ a.activeSubagentToolNames, NodupKeys p.2) :
    NodupKeys (addSubTools parent a bs).1.activeSubagentToolIds ∧
    NodupKeys (addSubTools parent a bs).1.activeSubagentToolNames ∧
    (∀ p ∈ (addSubTools parent a bs).1.activeSubagentToolNames, NodupKeys p.2) := by
  induction bs generalizing a h1 h2 h3 with
  | nil => exact ⟨h1, h2, h3⟩
  | cons b rest ih =>
      obtain ⟨g1, g2, g3⟩ := addOneSubTool_WF parent a b h1 h2 h3
      exact ih (addOneSubTool parent a b).1 g1 g2 g3

theorem addOneSubTool_noop (parent : String) (A : AgentState) (b : ContentBlock)
    (h : b.type = "tool_use" → ∀ i, truthyStr b.id = some i →
      (∃ S, mget A.activeSubagentToolIds parent = some S ∧ i ∈ S) ∧
      (∃ N, mget A.activeSubagentToolNames parent = some N ∧
        mget N i = some (b.name.getD "")))
    (hnk1 : NodupKeys A.activeSubagentToolIds) (hnk2 : NodupKeys A.activeSubagentToolNames)
    (hval : ∀ p ∈ A.activeSubagentToolNames, NodupKeys p.2) :
    (addOneSubTool parent A b).1 = A := by
  unfold addOneSubTool
  by_cases ht : b.type = "tool_use"
  · rw [if_pos ht]
    cases hid : truthyStr b.id with
    | none => rfl
    | some i =>
        obtain ⟨⟨S, hS, hiS⟩, ⟨N, hN, hNi⟩⟩ := h ht i hid
        dsimp only
        rw [hS, hN]
        dsimp only [Option.getD_some]
        rw [sadd_eq_self S i hiS]
        rw [mset_eq_self _ _ _ hS hnk1]
        rw [mset_eq_self N i _ hNi (hval (parent, N) (mget_mem _ _ _ hN))]
        rw [mset_eq_self _ _ _ hN hnk2]
  · rw [if_neg ht]

theorem addSubTools_noop (bs : List ContentBlock) (parent : String) (A : AgentState)
    (h : ∀ b ∈ bs, b.type = "tool_use" → ∀ i, truthyStr b.id = some i →
      (∃ S, mget A.activeSubagentToolIds parent = some S ∧ i ∈ S) ∧
      (∃ N, mget A.activeSubagentToolNames parent = some N ∧
        mget N i = some (b.name.getD "")))
    (hnk1 : NodupKeys A.activeSubagentToolIds) (hnk2 : NodupKeys A.activeSubagentToolNames)
    (hval : ∀ p ∈ A.activeSubagentToolNames, NodupKeys p.2) :
    (addSubTools parent A bs).1 = A := by
  induction bs with
  | nil => rfl
  | cons b rest ih =>
      show (addSubTools parent (addOneSubTool parent A b).1 rest).1 = A
      rw [addOneSubTool_noop parent A b (h b (List.mem_cons_self b rest)) hnk1 hnk2 hval]
      exact ih (fun b2 hb2 => h b2 (List.mem_cons_of_mem b hb2))

/-! ### Second-pass no-op for the nested sub-tool result loop -/

theorem removeOneSubTool_fields (now : Nat) (parent : String) (a : AgentState)
    (b : ContentBlock) :
    (removeOneSubTool now parent a b).1.activeToolIds = a.activeToolIds ∧
    (removeOneSubTool now parent a b).1.activeToolStatuses = a.activeToolStatuses ∧
    (removeOneSubTool now parent a b).1.activeToolNames = a.activeToolNames ∧
    (removeOneSubTool now parent a b).1.isWaiting = a.isWaiting ∧
    (removeOneSubTool now parent a b).1.permissionSent = a.permissionSent ∧
    (removeOneSubTool now parent a b).1.hadToolsInTurn = a.hadToolsInTurn := by
  unfold removeOneSubTool
  by_cases ht : b.type = "tool_result"
  · rw [if_pos ht]
    cases truthyStr b.tool_use_id with
    | none => exact ⟨rfl, rfl, rfl, rfl, rfl, rfl⟩
    | some i =>
        dsimp only
        cases mget a.activeSubagentToolIds parent <;>
          cases mget a.activeSubagentToolNames parent <;>
            exact ⟨rfl, rfl, rfl, rfl, rfl, rfl⟩
  · rw [if_neg ht]
    exact ⟨rfl, rfl, rfl, rfl, rfl, rfl⟩

theorem removeSubTools_fields (bs : List ContentBlock) (now : Nat) (parent : String)
    (a : AgentState) :
    (removeSubTools now parent a bs).1.activeToolIds = a.activeToolIds ∧
    (removeSubTools now parent a bs).1.activeToolStatuses = a.activeToolStatuses ∧
    (removeSubTools now parent a bs).1.activeToolNames = a.activeToolNames ∧
    (removeSubTools now parent a bs).1.isWaiting = a.isWaiting ∧
    (removeSubTools now parent a bs).1.permissionSent = a.permissionSent ∧
    (removeSubTools now parent a bs).1.hadToolsInTurn = a.hadToolsInTurn := by
  induction bs generalizing a with
  | nil => exact ⟨rfl, rfl, rfl, rfl, rfl, rfl⟩
  | cons b rest ih =>
      have h1 := removeOneSubTool_fields now parent a b
      have h2 := ih (removeOneSubTool now parent a b).1
      exact ⟨h2.1.trans h1.1, h2.2.1.trans h1.2.1, h2.2.2.1.trans h1.2.2.1,
        h2.2.2.2.1.trans h1.2.2.2.1, h2.2.2.2.2.1.trans h1.2.2.2.2.1,
        h2.2.2.2.2.2.trans h1.2.2.2.2.2⟩

theorem removeOneSubTool_pres (now : Nat) (parent : String) (a : AgentState)
    (b : ContentBlock) (x : String)
    (h1 : ∀ S, mget a.activeSubagentToolIds parent = some S → x ∉ S)
    (h2 : ∀ N, mget a.activeSubagentToolNames parent = some N → mget N x = none) :
    (∀ S, mget (removeOneSubTool now parent a b).1.activeSubagentToolIds parent = some S →
      x ∉ S) ∧
    (∀ N, mget (removeOneSubTool now parent a b).1.activeSubagentToolNames parent = some N →
      mget N x = none) := by
  unfold removeOneSubTool
  by_cases ht : b.type = "tool_result"
  · rw [if_pos ht]
    cases hid : truthyStr b.tool_use_id with
    | none => exact ⟨h1, h2⟩
    | some j =>
        dsimp only
        cases hS : mget a.activeSubagentToolIds parent with
        | none =>
            cases hN : mget a.activeSubagentToolNames parent with
            | none => exact ⟨h1, h2⟩
            | some N =>
                dsimp only
                refine ⟨h1, ?_⟩
                intro N2 hN2
                rw [mget_mset_self] at hN2
                rw [← Option.some_inj.mp hN2]
                exact mget_mdel_none N j x (h2 N hN)
        | some S =>
            dsimp only
            have hsub1 : ∀ S2, mget (mset a.activeSubagentToolIds parent (sdel S j))
                parent = some S2 → x ∉ S2 := by
              intro S2 hS2
              rw [mget_mset_self] at hS2
              rw [← Option.some_inj.mp hS2]
              intro hmem
              exact h1 S hS (mem_sdel.mp hmem).1
            cases hN : mget a.activeSubagentToolNames parent with
            | none =>
                refine ⟨hsub1, ?_⟩
                intro N2 hN2
                dsimp only at hN2
                rw [hN] at hN2
                exact absurd hN2 (by simp)
            | some N =>
                dsimp only
                refine ⟨hsub1, ?_⟩
                intro N2 hN2
                rw [mget_mset_self] at hN2
                rw [← Option.some_inj.mp hN2]
                exact mget_mdel_none N j x (h2 N hN)
  · rw [if_neg ht]
    exact ⟨h1, h2⟩

theorem removeSubTools_pres (bs : List ContentBlock) (now : Nat) (parent : String)
    (a : AgentState) (x : String)
    (h1 : ∀ S, mget a.activeSubagentToolIds parent = some S → x ∉ S)
    (h2 : ∀ N, mget a.activeSubagentToolNames parent = some N → mget N x = none) :
    (∀ S, mget (removeSubTools now parent a bs).1.activeSubagentToolIds parent = some S →
      x ∉ S) ∧
    (∀ N, mget (removeSubTools now parent a bs).1.activeSubagentToolNames parent = some N →
      mget N x = none) := by
  induction bs generalizing a with
  | nil => exact ⟨h1, h2⟩
  | cons b rest ih =>
      obtain ⟨g1, g2⟩ := removeOneSubTool_pres now parent a b x h1 h2
      exact ih (removeOneSubTool now parent a b).1 g1 g2

theorem removeOneSubTool_del (now : Nat) (parent : String) (a : AgentState)
    (b : ContentBlock) (x : String) (hb : b.type = "tool_result")
    (hid : truthyStr b.tool_use_id = some x) :
    (∀ S, mget (removeOneSubTool now parent a b).1.activeSubagentToolIds parent = some S →
      x ∉ S) ∧
    (∀ N, mget (removeOneSubTool now parent a b).1.activeSubagentToolNames parent = some N →
      mget N x = none) := by
  unfold removeOneSubTool
  rw [if_pos hb, hid]
  dsimp only
  cases hS : mget a.activeSubagentToolIds parent with
  | none =>
      cases hN : mget a.activeSubagentToolNames parent with
      | none =>
          constructor
          · intro S hS2
            dsimp only at hS2
            rw [hS] at hS2
            exact absurd hS2 (by simp)
          · intro N hN2
            dsimp only at hN2
            rw [hN] at hN2
            exact absurd hN2 (by simp)
      | some N =>
          dsimp only
          constructor
          · intro S hS2
            rw [hS] at hS2
            exact absurd hS2 (by simp)
          · intro N2 hN2
            rw [mget_mset_self] at hN2
            rw [← Option.some_inj.mp hN2]
            exact mget_mdel_self N x
  | some S =>
      dsimp only
      have hids : ∀ S2, mget (mset a.activeSubagentToolIds parent (sdel S x)) parent =
          some S2 → x ∉ S2 := by
        intro S2 hS2
        rw [mget_mset_self] at hS2
        rw [← Option.some_inj.mp hS2]
        intro hmem
        exact (mem_sdel.mp hmem).2 rfl
      cases hN : mget a.activeSubagentToolNames parent with
      | none =>
          refine ⟨hids, ?_⟩
          intro N2 hN2
          dsimp only at hN2
          rw [hN] at hN2
          exact absurd hN2 (by simp)
      | some N =>
          dsimp only
          refine ⟨hids, ?_⟩
          intro N2 hN2
          rw [mget_mset_self] at hN2
          rw [← Option.some_inj.mp hN2]
          exact mget_mdel_self N x

theorem removeSubTools_char (bs : List ContentBlock) (now : Nat) (parent : String)
    (a : AgentState) (x : String) (hx : x ∈ blockResultIds bs) :
    (∀ S, mget (removeSubTools now parent a bs).1.activeSubagentToolIds parent = some S →
      x ∉ S) ∧
    (∀ N, mget (removeSubTools now parent a bs).1.activeSubagentToolNames parent = some N →
      mget N x = none) := by
  induction bs generalizing a with
  | nil => simp [blockResultIds] at hx
  | cons b rest ih =>
      unfold blockResultIds at hx
      rw [List.filterMap_cons] at hx
      by_cases ht : b.type = "tool_result"
      · rw [if_pos ht] at hx
        cases hid : truthyStr b.tool_use_id with
        | none =>
            rw [hid] at hx
            exact ih (removeOneSubTool now parent a b).1 hx
        | some j =>
            rw [hid] at hx
            rcases List.mem_cons.mp hx with heq | hx
            · subst heq
              obtain ⟨g1, g2⟩ := removeOneSubTool_del now parent a b x ht hid
              exact removeSubTools_pres rest now parent (removeOneSubTool now parent a b).1
                x g1 g2
            · exact ih (removeOneSubTool now parent a b).1 hx
      · rw [if_neg ht] at hx
        exact ih (removeOneSubTool now parent a b).1 hx

theorem removeOneSubTool_WF (now : Nat) (parent : String) (a : AgentState) (b : ContentBlock)
    (h1 : NodupKeys a.activeSubagentToolIds) (h2 : NodupKeys a.activeSubagentToolNames) :
    NodupKeys (removeOneSubTool now parent a b).1.activeSubagentToolIds ∧
    NodupKeys (removeOneSubTool now parent a b).1.activeSubagentToolNames := by
  unfold removeOneSubTool
  by_cases ht : b.type = "tool_result"
  · rw [if_pos ht]
    cases truthyStr b.tool_use_id with
    | none => exact ⟨h1, h2⟩
    | some i =>
        dsimp only
        cases mget a.activeSubagentToolIds parent with
        | none =>
            cases mget a.activeSubagentToolNames parent with
            | none => exact ⟨h1, h2⟩
            | some N => exact ⟨h1, NodupKeys_mset _ _ _ h2⟩
        | some S =>
            dsimp only
            cases hN : mget a.activeSubagentToolNames parent with
            | none => exact ⟨NodupKeys_mset _ _ _ h1, h2⟩
            | some N => exact ⟨NodupKeys_mset _ _ _ h1, NodupKeys_mset _ _ _ h2⟩
  · rw [if_neg ht]
    exact ⟨h1, h2⟩

theorem removeSubTools_WF (bs : List ContentBlock) (now : Nat) (parent : String)
    (a : AgentState) (h1 : NodupKeys a.activeSubagentToolIds)
    (h2 : NodupKeys a.activeSubagentToolNames) :
    NodupKeys (removeSubTools now parent a bs).1.activeSubagentToolIds ∧
    NodupKeys (removeSubTools now parent a bs).1.activeSubagentToolNames := by
  induction bs generalizing a h1 h2 with
  | nil => exact ⟨h1, h2⟩
  | cons b rest ih =>
      obtain ⟨g1, g2⟩ := removeOneSubTool_WF now parent a b h1 h2
      exact ih (removeOneSubTool now parent a b).1 g1 g2

theorem removeOneSubTool_noop (now2 : Nat) (parent : String) (A : AgentState)
    (b : ContentBlock)
    (h : b.type = "tool_result" → ∀ i, truthyStr b.tool_use_id = some i →
      (∀ S, mget A.activeSubagentToolIds parent = some S → i ∉ S) ∧
      (∀ N, mget A.activeSubagentToolNames parent = some N → mget N i = none))
    (hnk1 : NodupKeys A.activeSubagentToolIds) (hnk2 : NodupKeys A.activeSubagentToolNames) :
    (removeOneSubTool now2 parent A b).1 = A := by
  unfold removeOneSubTool
  by_cases ht : b.type = "tool_result"
  · rw [if_pos ht]
    cases hid : truthyStr b.tool_use_id with
    | none => rfl
    | some i =>
        obtain ⟨h1, h2⟩ := h ht i hid
        dsimp only
        cases hS : mget A.activeSubagentToolIds parent with
        | none =>
            cases hN : mget A.activeSubagentToolNames parent with
            | none => rfl
            | some N =>
                dsimp only
                rw [mdel_eq_self N i (h2 N hN), mset_eq_self _ _ _ hN hnk2]
        | some S =>
            dsimp only
            rw [sdel_eq_self S i (h1 S hS), mset_eq_self _ _ _ hS hnk1]
            cases hN : mget A.activeSubagentToolNames parent with
            | none => rfl
            | some N =>
                dsimp only
                rw [mdel_eq_self N i (h2 N hN), mset_eq_self _ _ _ hN hnk2]
  · rw [if_neg ht]

theorem removeSubTools_noop (bs : List ContentBlock) (now2 : Nat) (parent : String)
    (A : AgentState)
    (h : ∀ x ∈ blockResultIds bs,
      (∀ S, mget A.activeSubagentToolIds parent = some S → x ∉ S) ∧
      (∀ N, mget A.activeSubagentToolNames parent = some N → mget N x = none))
    (hnk1 : NodupKeys A.activeSubagentToolIds) (hnk2 : NodupKeys A.activeSubagentToolNames) :
    (removeSubTools now2 parent A bs).1 = A := by
  induction bs with
  | nil => rfl
  | cons b rest ih =>
      show (removeSubTools now2 parent (removeOneSubTool now2 parent A b).1 rest).1 = A
      have hstep : (removeOneSubTool now2 parent A b).1 = A := by
        apply removeOneSubTool_noop now2 parent A b ?_ hnk1 hnk2
        intro ht i hid
        apply h
        unfold blockResultIds
        rw [List.mem_filterMap]
        exact ⟨b, List.mem_cons_self b rest, by rw [if_pos ht, hid]⟩
      rw [hstep]
      apply ih
      intro x hx
      apply h
      unfold blockResultIds at hx ⊢
      rw [List.mem_filterMap] at hx ⊢
      obtain ⟨b2, hb2, hfb2⟩ := hx
      exact ⟨b2, List.mem_cons_of_mem b hb2, hfb2⟩

theorem newTurnReset_agent (now : Nat) (s : Sys) :
    (newTurnReset now s).1.agent = ⟨[], [], [], [], [], false, false, false⟩ := by
  unfold newTurnReset clearAgentActivity
  dsimp only
  rw [cancelPermissionTimer_agent]

/-- Claim C6, amended: processing the same well-formed record line a
second time (a record whose tool_use block ids are pairwise distinct,
against an agent state whose maps and sets are duplicate-free, as JS
Maps/Sets are) leaves the agent state exactly as the first processing
left it — no state effect is double-applied; the duplicate is however
not silent: it re-emits events (see the counterexample). -/
theorem claim_C6_amended (now now2 : Nat) (l : TLine) (s : Sys)
    (hA : AgentWF s.agent) (hR : RecordWF l) :
    (processTranscriptLine now2 l (processTranscriptLine now l s).1).1.agent =
      (processTranscriptLine now l s).1.agent := by
  obtain ⟨hA1, hA2, hA3, hA4, hA5, hA6, hA7⟩ := hA
  cases l with
  | malformed => rfl
  | parsed r =>
      cases r with
      | otherKind => rfl
      | assistant content =>
          cases content with
          | none => rfl
          | some blocks =>
              have hR2 : (blockUseIds blocks).Nodup := hR
              by_cases huse : blocks.any (fun b => b.type == "tool_use") = true
              · have key : ∀ (t : Nat) (w : Sys),
                    (processTranscriptLine t
                      (TLine.parsed (Record.assistant (some blocks))) w).1.agent =
                    (addToolUses
                      { w.agent with isWaiting := false, hadToolsInTurn := true }
                      blocks).1 := by
                  intro t w
                  dsimp only [processTranscriptLine, processRecord]
                  rw [if_pos huse]
                  dsimp only
                  simp only [cancelWaitingTimer_agent]
                  split
                  · rw [startPermissionTimer_agent]
                  · rfl
                rw [key now2, key now s]
                have hfields := addToolUses_fields blocks
                  { s.agent with isWaiting := false, hadToolsInTurn := true }
                have hupd : ({ (addToolUses
                    { s.agent with isWaiting := false, hadToolsInTurn := true } blocks).1 with
                      isWaiting := false, hadToolsInTurn := true } : AgentState) =
                    (addToolUses
                      { s.agent with isWaiting := false, hadToolsInTurn := true } blocks).1 :=
                  agent_iw_ht_update_self _ hfields.1 hfields.2.2.1
                rw [hupd]
                have hnk := addToolUses_NodupKeys blocks
                  { s.agent with isWaiting := false, hadToolsInTurn := true } hA2 hA3
                exact addToolUses_noop blocks _
                  (fun b hb ht i hid => addToolUses_char blocks
                    { s.agent with isWaiting := false, hadToolsInTurn := true }
                    hR2 b hb ht i hid)
                  hnk.1 hnk.2
              · have key : ∀ (t : Nat) (w : Sys),
                    (processTranscriptLine t
                      (TLine.parsed (Record.assistant (some blocks))) w).1.agent = w.agent := by
                  intro t w
                  dsimp only [processTranscriptLine, processRecord]
                  rw [if_neg huse]
                  split
                  · rw [startWaitingTimer_agent]
                  · rfl
                rw [key now2, key now s]
      | system subtype =>
          by_cases hsub : subtype = some "turn_duration"
          · subst hsub
            show (processTranscriptLine now2 turnDurationLine
                (processTranscriptLine now turnDurationLine s).1).1.agent =
              (processTranscriptLine now turnDurationLine s).1.agent
            by_cases hlen : s.agent.activeToolIds.length > 0
            · rw [turnDuration_step_pos now s hlen]
              rw [turnDuration_step_neg now2 _ (by simp)]
            · rw [turnDuration_step_neg now s hlen]
              have hnil : s.agent.activeToolIds = [] := by
                cases hc : s.agent.activeToolIds with
                | nil => rfl
                | cons a rest => rw [hc] at hlen; simp at hlen
              rw [turnDuration_step_neg now2 _ (by simp [hnil])]
          · have key : ∀ (t : Nat) (w : Sys),
                (processTranscriptLine t (TLine.parsed (Record.system subtype)) w).1.agent =
                  w.agent := by
              intro t w
              dsimp only [processTranscriptLine, processRecord]
              rw [if_neg hsub]
            rw [key now2, key now s]
      | user content =>
          cases content with
          | other => rfl
          | str txt =>
              by_cases htrim : txt.trim ≠ ""
              · have key : ∀ (t : Nat) (w : Sys),
                    (processTranscriptLine t
                      (TLine.parsed (Record.user (UserContent.str txt))) w).1.agent =
                    ⟨[], [], [], [], [], false, false, false⟩ := by
                  intro t w
                  dsimp only [processTranscriptLine, processRecord]
                  rw [if_pos htrim]
                  exact newTurnReset_agent t w
                rw [key now2, key now s]
              · have key : ∀ (t : Nat) (w : Sys),
                    (processTranscriptLine t
                      (TLine.parsed (Record.user (UserContent.str txt))) w).1.agent =
                      w.agent := by
                  intro t w
                  dsimp only [processTranscriptLine, processRecord]
                  rw [if_neg htrim]
                rw [key now2, key now s]
          | arr blocks =>
              by_cases hres : blocks.any (fun b => b.type == "tool_result") = true
              · have key : ∀ (t : Nat) (w : Sys),
                    (processTranscriptLine t
                      (TLine.parsed (Record.user (UserContent.arr blocks))) w).1.agent =
                    (if (processToolResults t w.agent blocks).1.activeToolIds.length = 0 then
                      { (processToolResults t w.agent blocks).1 with hadToolsInTurn := false }
                    else (processToolResults t w.agent blocks).1) := by
                  intro t w
                  dsimp only [processTranscriptLine, processRecord]
                  rw [if_pos hres]
                rw [key now2, key now s]
                set R1 := (processToolResults now s.agent blocks).1 with hR1def
                set F := (if R1.activeToolIds.length = 0 then
                  { R1 with hadToolsInTurn := false } else R1) with hFdef
                have hFid : F.activeToolIds = R1.activeToolIds := by
                  rw [hFdef]
                  split <;> rfl
                have hFst : F.activeToolStatuses = R1.activeToolStatuses := by
                  rw [hFdef]
                  split <;> rfl
                have hFnm : F.activeToolNames = R1.activeToolNames := by
                  rw [hFdef]
                  split <;> rfl
                have hfacts : ∀ i ∈ blockResultIds blocks, i ∉ F.activeToolIds ∧
                    mget F.activeToolStatuses i = none ∧ mget F.activeToolNames i = none := by
                  intro i hi
                  have hclears := processToolResults_clears blocks now s.agent i hi
                  have hids : i ∉ R1.activeToolIds := by
                    rw [hR1def, processToolResults_activeToolIds]
                    rintro ⟨-, habs⟩
                    exact habs hi
                  refine ⟨by rwa [hFid], ?_, ?_⟩
                  · rw [hFst]
                    exact hclears.2
                  · rw [hFnm]
                    exact hclears.1
                have hR2F : (processToolResults now2 F blocks).1 = F :=
                  processToolResults_noop blocks now2 F hfacts
                rw [hR2F, hFid]
                by_cases hz : R1.activeToolIds.length = 0
                · rw [if_pos hz]
                  have hFval : F = { R1 with hadToolsInTurn := false } := by
                    rw [hFdef, if_pos hz]
                  refine agent_ht_update_self F ?_
                  rw [hFval]
                · rw [if_neg hz]
              · have key : ∀ (t : Nat) (w : Sys),
                    (processTranscriptLine t
                      (TLine.parsed (Record.user (UserContent.arr blocks))) w).1.agent =
                    ⟨[], [], [], [], [], false, false, false⟩ := by
                  intro t w
                  dsimp only [processTranscriptLine, processRecord]
                  rw [if_neg hres]
                  exact newTurnReset_agent t w
                rw [key now2, key now s]
      | progress pid data =>
          cases hp : truthyStr pid with
          | none =>
              have key : ∀ (t : Nat) (w : Sys),
                  processTranscriptLine t (TLine.parsed (Record.progress pid data)) w =
                    (w, []) := by
                intro t w
                dsimp only [processTranscriptLine, processRecord, processProgressRecord]
                rw [hp]
              rw [key now2, key now s]
          | some parentId =>
              cases data with
              | none =>
                  have key : ∀ (t : Nat) (w : Sys),
                      processTranscriptLine t (TLine.parsed (Record.progress pid none)) w =
                        (w, []) := by
                    intro t w
                    dsimp only [processTranscriptLine, processRecord, processProgressRecord]
                    rw [hp]
                  rw [key now2, key now s]
              | some d =>
                  by_cases hdt : (d.dtype = some "bash_progress" ∨ d.dtype = some "mcp_progress")
                  · have key : ∀ (t : Nat) (w : Sys),
                        (processTranscriptLine t
                          (TLine.parsed (Record.progress pid (some d))) w).1.agent =
                          w.agent := by
                      intro t w
                      dsimp only [processTranscriptLine, processRecord, processProgressRecord]
                      rw [hp]
                      dsimp only
                      rw [if_pos hdt]
                      split
                      · rw [startPermissionTimer_agent]
                      · rfl
                    rw [key now2, key now s]
                  · cases hm : d.message with
                    | none =>
                        have key : ∀ (t : Nat) (w : Sys),
                            (processTranscriptLine t
                              (TLine.parsed (Record.progress pid (some d))) w).1.agent =
                              w.agent := by
                          intro t w
                          dsimp only [processTranscriptLine, processRecord,
                            processProgressRecord]
                          rw [hp]
                          dsimp only
                          rw [if_neg hdt]
                          split
                          · rw [hm]
                          · rfl
                        rw [key now2, key now s]
                    | some msg =>
                        cases hmm : msg.message with
                        | none =>
                            have key : ∀ (t : Nat) (w : Sys),
                                (processTranscriptLine t
                                  (TLine.parsed (Record.progress pid (some d))) w).1.agent =
                                  w.agent := by
                              intro t w
                              dsimp only [processTranscriptLine, processRecord,
                                processProgressRecord]
                              rw [hp]
                              dsimp only
                              rw [if_neg hdt]
                              split
                              · rw [hm]
                                dsimp only
                                rw [hmm]
                              · rfl
                            rw [key now2, key now s]
                        | some inner =>
                            cases hc : inner.content with
                            | none =>
                                have key : ∀ (t : Nat) (w : Sys),
                                    (processTranscriptLine t
                                      (TLine.parsed (Record.progress pid (some d))) w).1.agent =
                                      w.agent := by
                                  intro t w
                                  dsimp only [processTranscriptLine, processRecord,
                                    processProgressRecord]
                                  rw [hp]
                                  dsimp only
                                  rw [if_neg hdt]
                                  split
                                  · rw [hm]
                                    dsimp only
                                    rw [hmm]
                                    dsimp only
                                    rw [hc]
                                  · rfl
                                rw [key now2, key now s]
                            | some content =>
                                have hRc : (blockUseIds content).Nodup := by
                                  unfold RecordWF at hR
                                  simp only [hm, hmm, hc] at hR
                                  exact hR
                                by_cases hmt : msg.type = "assistant"
                                · have key : ∀ (t : Nat) (w : Sys),
                                      mget w.agent.activeToolNames parentId = some "Task" →
                                      (processTranscriptLine t
                                        (TLine.parsed (Record.progress pid (some d)))
                                          w).1.agent =
                                        (addSubTools parentId w.agent content).1 := by
                                    intro t w hTask
                                    dsimp only [processTranscriptLine, processRecord,
                                      processProgressRecord]
                                    rw [hp]
                                    dsimp only
                                    rw [if_neg hdt, if_pos hTask, hm]
                                    dsimp only
                                    rw [hmm]
                                    dsimp only
                                    rw [hc]
                                    dsimp only
                                    rw [if_pos hmt]
                                    dsimp only
                                    split
                                    · rw [startPermissionTimer_agent]
                                    · rfl
                                  by_cases hTask : mget s.agent.activeToolNames parentId =
                                      some "Task"
                                  · have hag : (processTranscriptLine now
                                        (TLine.parsed (Record.progress pid (some d)))
                                          s).1.agent =
                                        (addSubTools parentId s.agent content).1 :=
                                      key now s hTask
                                    have hTask2 : mget (processTranscriptLine now
                                        (TLine.parsed (Record.progress pid (some d)))
                                          s).1.agent.activeToolNames parentId =
                                        some "Task" := by
                                      rw [hag,
                                        (addSubTools_fields content parentId s.agent).2.2.1]
                                      exact hTask
                                    rw [key now2 _ hTask2, hag]
                                    have hwf := addSubTools_WF content parentId s.agent
                                      hA4 hA6 hA7
                                    exact addSubTools_noop content parentId _
                                      (fun b hb ht i hid => addSubTools_char content parentId
                                        s.agent hRc b hb ht i hid)
                                      hwf.1 hwf.2.1 hwf.2.2
                                  · have keyn : ∀ (t : Nat) (w : Sys),
                                        mget w.agent.activeToolNames parentId ≠ some "Task" →
                                        (processTranscriptLine t
                                          (TLine.parsed (Record.progress pid (some d)))
                                            w).1.agent = w.agent := by
                                      intro t w hT
                                      dsimp only [processTranscriptLine, processRecord,
                                        processProgressRecord]
                                      rw [hp]
                                      dsimp only
                                      rw [if_neg hdt, if_neg hT]
                                    have h1 := keyn now s hTask
                                    have hT2 : mget (processTranscriptLine now
                                        (TLine.parsed (Record.progress pid (some d)))
                                          s).1.agent.activeToolNames parentId ≠
                                        some "Task" := by
                                      rw [h1]
                                      exact hTask
                                    rw [keyn now2 _ hT2, h1]
                                · by_cases hmu : msg.type = "user"
                                  · have key : ∀ (t : Nat) (w : Sys),
                                        mget w.agent.activeToolNames parentId = some "Task" →
                                        (processTranscriptLine t
                                          (TLine.parsed (Record.progress pid (some d)))
                                            w).1.agent =
                                          (removeSubTools t parentId w.agent content).1 := by
                                      intro t w hTask
                                      dsimp only [processTranscriptLine, processRecord,
                                        processProgressRecord]
                                      rw [hp]
                                      dsimp only
                                      rw [if_neg hdt, if_pos hTask, hm]
                                      dsimp only
                                      rw [hmm]
                                      dsimp only
                                      rw [hc]
                                      dsimp only
                                      rw [if_neg hmt, if_pos hmu]
                                      dsimp only
                                      split
                                      · rw [startPermissionTimer_agent]
                                      · rfl
                                    by_cases hTask : mget s.agent.activeToolNames parentId =
                                        some "Task"
                                    · have hag : (processTranscriptLine now
                                          (TLine.parsed (Record.progress pid (some d)))
                                            s).1.agent =
                                          (removeSubTools now parentId s.agent content).1 :=
                                        key now s hTask
                                      have hTask2 : mget (processTranscriptLine now
                                          (TLine.parsed (Record.progress pid (some d)))
                                            s).1.agent.activeToolNames parentId =
                                          some "Task" := by
                                        rw [hag, (removeSubTools_fields content now
                                          parentId s.agent).2.2.1]
                                        exact hTask
                                      rw [key now2 _ hTask2, hag]
                                      have hwf := removeSubTools_WF content now parentId
                                        s.agent hA4 hA6
                                      exact removeSubTools_noop content now2 parentId _
                                        (fun x hx => removeSubTools_char content now parentId
                                          s.agent x hx)
                                        hwf.1 hwf.2
                                    · have keyn : ∀ (t : Nat) (w : Sys),
                                          mget w.agent.activeToolNames parentId ≠
                                            some "Task" →
                                          (processTranscriptLine t
                                            (TLine.parsed (Record.progress pid (some d)))
                                              w).1.agent = w.agent := by
                                        intro t w hT
                                        dsimp only [processTranscriptLine, processRecord,
                                          processProgressRecord]
                                        rw [hp]
                                        dsimp only
                                        rw [if_neg hdt, if_neg hT]
                                      have h1 := keyn now s hTask
                                      have hT2 : mget (processTranscriptLine now
                                          (TLine.parsed (Record.progress pid (some d)))
                                            s).1.agent.activeToolNames parentId ≠
                                          some "Task" := by
                                        rw [h1]
                                        exact hTask
                                      rw [keyn now2 _ hT2, h1]
                                  · have key : ∀ (t : Nat) (w : Sys),
                                        (processTranscriptLine t
                                          (TLine.parsed (Record.progress pid (some d)))
                                            w).1.agent = w.agent := by
                                      intro t w
                                      dsimp only [processTranscriptLine, processRecord,
                                        processProgressRecord]
                                      rw [hp]
                                      dsimp only
                                      rw [if_neg hdt]
                                      split
                                      · rw [hm]
                                        dsimp only
                                        rw [hmm]
                                        dsimp only
                                        rw [hc]
                                        dsimp only
                                        rw [if_neg hmt, if_neg hmu]
                                      · rfl
                                    rw [key now2, key now s]

instance {α : Type} [DecidableEq α] (m : List (String × α)) : Decidable (NodupKeys m) := by
  unfold NodupKeys
  infer_instance

instance (a : AgentState) : Decidable (AgentWF a) := by
  unfold AgentWF
  infer_instance

/-- Witness for C6 amended: duplicating the Bash tool-start record
leaves the agent state of the first processing unchanged. -/
theorem claim_C6_witness :
    (processTranscriptLine 1 bashStartLine
      (processTranscriptLine 0 bashStartLine initSys).1).1.agent =
      (processTranscriptLine 0 bashStartLine initSys).1.agent := by
  apply claim_C6_amended
  · show AgentWF initSys.agent
    decide
  · show (blockUseIds
      [⟨"tool_use", some "t1", some "Bash", ⟨none, some "make", none⟩, none⟩]).Nodup
    decide

end PixelAgents
